import Mathlib

/-!
# Verification of the xv6-riscv-rs process core

Shallow embedding of the process-table core found in `src/kernel/c/proc.c`
and the file-descriptor syscalls in `src/kernel/c/sysfile.c`, together with
theorems settling the frozen claims about them.

The repository keeps only part of the kernel in C: `allocproc`, `freeproc`,
`allocpid`, `sleep`, `wakeup` and the string helpers are declared `extern`
in `proc.c` and implemented elsewhere (outside the provided sources). Where
a definition embeds such a missing function, its doc comment starts with
`Modelled from the spec:` and it follows the specification's words.

Two models are developed:

* a sequential functional model of the lifecycle operations (`userinit`,
  `fork`, `exit`, `wait`, `sched`, `sys_pipe`), where the external
  collaborators (`uvmcopy`, `copyout`, `kalloc`, argument fetching) appear
  as boolean/value oracles passed in as parameters; and
* a small labelled transition system for the multi-CPU scheduler and the
  sleep/wakeup rendezvous, atomic at the granularity of the per-slot
  spinlock critical sections (every access to `p->state`, `p->chan` and
  `c->proc` in the source happens with `p->lock` held, so the lock-protected
  regions execute without interference and may be taken as atomic steps).
-/

namespace XV6

/-- Page size, from `riscv.h` (`PGSIZE = 4096`). -/
def PGSIZE : Nat := 4096

/-- Process states, from `proc.h` / spec §3: UNUSED, USED, SLEEPING,
RUNNABLE, RUNNING, ZOMBIE. -/
inductive PState where
  | UNUSED
  | USED
  | SLEEPING
  | RUNNABLE
  | RUNNING
  | ZOMBIE
deriving DecidableEq, Repr

/-- The user-register snapshot page. The source (`userinit`, `fork`) uses
the fields `epc`, `sp` and `a0`; the full layout lives in `proc.h`, which is
not among the provided sources, so the remaining saved registers are
collapsed into the single component `rest`, which the verbatim struct copy
in `fork` copies along with everything else. -/
structure Trapframe where
  epc : Nat
  sp : Nat
  a0 : Nat
  rest : Nat
deriving DecidableEq, Repr

/-- A process-table slot (spec §3, `struct proc` in `proc.h`).

`parent` and `chan` are slot indices: the C code stores pointers to the
slot (`p.original`), and the only channels the embedded operations use are
slot addresses (`sleep(p.original, ...)` in `wait`, `wakeup(*p.parent)` in
`exit`). `ofile` entries and `cwd` are references to external file/inode
objects, represented by numeric ids. `pagetable` records whether the slot
owns a user page table (its contents belong to the out-of-scope VM layer). -/
structure Proc (n : Nat) where
  state : PState
  pid : Nat
  parent : Option (Fin n)
  chan : Option (Fin n)
  killed : Bool
  xstate : Int
  sz : Nat
  pagetable : Bool
  trapframe : Trapframe
  name : String
  ofile : List (Option Nat)
  cwd : Option Nat
deriving DecidableEq

/-- The all-zero trapframe (contents of a freed trapframe page are
irrelevant; `freeproc` conceptually returns the page). -/
def tfZero : Trapframe := ⟨0, 0, 0, 0⟩

/-- The kernel's process-manager state: the slot pool `proc[NPROC]`
(parametrised by `n = NPROC`), the `nextpid` counter and the `initproc`
global. -/
structure KState (n : Nat) where
  procs : Fin n → Proc n
  nextpid : Nat
  initp : Option (Fin n)

/-- A fully zeroed slot: what `procinit` leaves in every entry at boot. -/
def procZero (n : Nat) : Proc n :=
  { state := .UNUSED, pid := 0, parent := none, chan := none, killed := false
  , xstate := 0, sz := 0, pagetable := false, trapframe := tfZero
  , name := "", ofile := [], cwd := none }

/-- The boot state: all slots UNUSED and zeroed, `nextpid = 1` (the first
allocated pid is 1), no `initproc` yet. -/
def bootState (n : Nat) : KState n :=
  { procs := fun _ => procZero n, nextpid := 1, initp := none }

/-- Modelled from the spec: `safestrcpy` is the bounded, NUL-terminating
string copy the source uses for slot names; with bound `b` it copies at
most `b - 1` characters of the source string (spec §9: "copy with bound
equal to the name-buffer length"). -/
def safestrcpy (t : String) (b : Nat) : String :=
  ((t.toList.take (b - 1)).asString)

/-- First UNUSED slot in index order, the slot `allocproc`'s scan picks. -/
def firstUnused (s : KState n) : Option (Fin n) :=
  (List.finRange n).find? (fun i => decide ((s.procs i).state = PState.UNUSED))

/-- Modelled from the spec: `allocproc` (declared `extern` in `proc.c`,
implemented outside the provided sources). Spec §4.1: scan slots; the first
UNUSED one is marked USED, given a fresh pid by `allocpid` (atomically
`nextpid++`), a trapframe page and a fresh user page table, and returned
with its lock held. If no slot is free or any allocation fails, the partial
state is cleaned up and the call fails. The oracle `kallocOk` stands for
the external page allocations succeeding; `tf0` is the (junk) content of
the freshly allocated trapframe page. -/
def allocproc (kallocOk : Bool) (tf0 : Trapframe) (s : KState n) :
    Option (Fin n × KState n) :=
  if !kallocOk then none
  else
    match firstUnused s with
    | none => none
    | some i =>
      some (i,
        { s with
          procs := Function.update s.procs i
            { s.procs i with
              state := .USED, pid := s.nextpid, pagetable := true
            , trapframe := tf0 }
        , nextpid := s.nextpid + 1 })

/-- Modelled from the spec: `freeproc` (declared `extern` in `proc.c`,
implemented outside the provided sources). Spec §4.1: free the trapframe
page, destroy the user page table, zero pid/parent/name/chan/killed/
xstate/sz, set state UNUSED. (`ofile` and `cwd` are not touched: `exit`
has already cleared them when a zombie is freed.) -/
def freeproc (i : Fin n) (s : KState n) : KState n :=
  { s with
    procs := Function.update s.procs i
      { state := .UNUSED, pid := 0, parent := none, chan := none
      , killed := false, xstate := 0, sz := 0, pagetable := false
      , trapframe := tfZero, name := ""
      , ofile := (s.procs i).ofile, cwd := (s.procs i).cwd } }

/-- `userinit` from `src/kernel/c/proc.c` lines 61-84: allocate the first
slot, record it in `initproc`, load the embedded bootstrap program into a
single fresh page (`uvminit`), set `sz = PGSIZE`, trapframe `epc = 0` and
`sp = PGSIZE`, copy the name with `safestrcpy(p.name, "initcode",
sizeof(16))` — the bound is `sizeof(int) = 4` — set `cwd = namei("/")`
(the oracle `rootIno`) and make the slot RUNNABLE. `none` models the
unchecked crash if `allocproc` fails at boot. -/
def userinit (kallocOk : Bool) (tf0 : Trapframe) (rootIno : Nat)
    (s : KState n) : Option (KState n) :=
  match allocproc kallocOk tf0 s with
  | none => none
  | some (i, s1) =>
    some
      { s1 with
        initp := some i
      , procs := Function.update s1.procs i
          { s1.procs i with
            sz := PGSIZE
          , trapframe := { s1.procs i |>.trapframe with epc := 0, sp := PGSIZE }
          , name := safestrcpy "initcode" 4
          , cwd := some rootIno
          , state := .RUNNABLE } }

/-- `fork` from `src/kernel/c/proc.c` lines 88-135. Oracles: `kallocOk`/`tf0`
feed the spec-modelled `allocproc`; `uvmOk` is the result of the external
`uvmcopy` of the parent's user memory. Returns the C return value and the
new state. The child's `ofile` is built entry-by-entry as in the source
loop: open parent entries are `filedup`ed (same reference, external
refcount bumped), other entries keep the child slot's previous contents
(all empty in any state the kernel reaches). -/
def fork (p : Fin n) (kallocOk : Bool) (tf0 : Trapframe) (uvmOk : Bool)
    (s : KState n) : Int × KState n :=
  match allocproc kallocOk tf0 s with
  | none => (-1, s)
  | some (np, s1) =>
    if !uvmOk then (-1, freeproc np s1)
    else
      let pp := s1.procs p
      let ch := s1.procs np
      let s2 :=
        { s1 with
          procs := Function.update s1.procs np
            { ch with
              sz := pp.sz
            , trapframe := { pp.trapframe with a0 := 0 }
            , ofile := List.zipWith (fun pe ce => match pe with
                | some f => some f
                | none => ce) pp.ofile ch.ofile
            , cwd := pp.cwd
            , name := safestrcpy pp.name 4
            , parent := some p
            , state := .RUNNABLE } }
      ((ch.pid : Int), s2)

/-- User memory as seen by `copyout`: a map from user virtual addresses to
the (integer) values stored there. -/
def Mem : Type := Nat → Int

/-- Outcome of one call to `wait`: either it returns a value (with the
resulting kernel state and user memory), or it commits to
`sleep(p, wait_lock)` and would rescan once woken. -/
inductive WaitOut (n : Nat) where
  | ret (v : Int) (s : KState n) (mem : Mem)
  | blocked

/-- The slot scan inside `wait` (proc.c lines 207-232) over a list of slot
indices: reports whether any child was seen and the first ZOMBIE child. -/
def waitScanGo (p : Fin n) (s : KState n) :
    List (Fin n) → Bool × Option (Fin n)
  | [] => (false, none)
  | i :: rest =>
    if (s.procs i).parent = some p then
      if (s.procs i).state = .ZOMBIE then (true, some i)
      else (true, (waitScanGo p s rest).2)
    else waitScanGo p s rest

/-- `wait` from `src/kernel/c/proc.c` lines 198-243. `addr` is the user
address for the exit status (0 = none), `coOk` the result of the external
`copyout`. A state in which the scan finds no zombie child but some child
exists, with the caller not killed, makes `wait` sleep on the caller's own
slot channel and rescan later: that outcome is `blocked`. -/
def wait (p : Fin n) (addr : Nat) (coOk : Bool) (s : KState n) (mem : Mem) :
    WaitOut n :=
  match (waitScanGo p s (List.finRange n)).2 with
  | some c =>
    if addr ≠ 0 ∧ coOk = false then .ret (-1) s mem
    else
      .ret ((s.procs c).pid : Int) (freeproc c s)
        (if addr ≠ 0 then Function.update mem addr (s.procs c).xstate else mem)
  | none =>
    if (waitScanGo p s (List.finRange n)).1 = false ∨ (s.procs p).killed = true
    then .ret (-1) s mem
    else .blocked

/-- The C return value of a `wait` outcome, if it returned. -/
def WaitOut.retVal : WaitOut n → Option Int
  | .ret v _ _ => some v
  | .blocked => none

/-- Observable events of the lifecycle operations: calls into the external
file system, lock operations on `wait_lock` and the per-slot locks, wakeups
and the final `sched()`. Slot locks and wakeup channels are identified by
slot index (`wakeupEv none` is `wakeup(0)` on a null parent pointer). -/
inductive Ev where
  | fileclose (f : Nat)
  | iput (ino : Option Nat)
  | acquireWait
  | releaseWait
  | acquireLock (i : Nat)
  | releaseLock (i : Nat)
  | wakeupEv (c : Option Nat)
  | schedEv
deriving DecidableEq, Repr

/-- Modelled from the spec: `wakeup(chan)` (declared `extern`, implemented
outside the provided sources). Spec §4.5: for each slot except the
caller's own, if SLEEPING on a matching channel, make it RUNNABLE. `c` is
the slot whose address is the channel. -/
def wakeupOn (caller c : Fin n) (s : KState n) : KState n :=
  { s with
    procs := fun j =>
      if j ≠ caller ∧ (s.procs j).state = .SLEEPING ∧ (s.procs j).chan = some c
      then { s.procs j with state := .RUNNABLE }
      else s.procs j }

/-- `wakeup` on an optional slot channel: `wakeup(0)` on a null pointer
wakes nobody (no sleeper's channel is the null address). -/
def wakeupOpt (caller : Fin n) (c : Option (Fin n)) (s : KState n) :
    KState n :=
  match c with
  | some q => wakeupOn caller q s
  | none => s

/-- The loop body of `reparent` (proc.c lines 139-149) over a list of slot
indices: every slot whose parent is `p` is given parent `ip`
(`initproc.original`), with a `wakeup(initproc)` issued for each. -/
def reparentGo (p : Fin n) (ip : Option (Fin n)) (s : KState n) :
    List (Fin n) → KState n × List Ev
  | [] => (s, [])
  | i :: rest =>
    if (s.procs i).parent = some p then
      let s1 :=
        { s with
          procs := Function.update s.procs i
            { s.procs i with parent := ip } }
      let next := reparentGo p ip (wakeupOpt p ip s1) rest
      (next.1, Ev.wakeupEv (ip.map Fin.val) :: next.2)
    else reparentGo p ip s rest

/-- `reparent` from `src/kernel/c/proc.c` lines 139-149, called by the
exiting process `p`; `ip` is the current `initproc` slot. -/
def reparent (p : Fin n) (ip : Option (Fin n)) (s : KState n) :
    KState n × List Ev :=
  reparentGo p ip s (List.finRange n)

/-- `exit` from `src/kernel/c/proc.c` lines 154-194. `.error ()` is the
`panic("init exiting")` when the caller is `initproc`. Otherwise the
result is the state at the final `sched()` together with the trace of
events in program order: close every open file and clear the entry,
`iput` the cwd and clear it, acquire `wait_lock`, reparent (waking init
once per reparented child), wake the parent, acquire the caller's own
lock, store `xstate` and set ZOMBIE, release `wait_lock` — but never the
caller's own lock — and call `sched()`, the last event (the code after
`sched()` is the unreachable `panic("zombie exit")`). -/
def exit (p : Fin n) (status : Int) (s : KState n) :
    Except Unit (KState n × List Ev) :=
  if s.initp = some p then .error ()
  else
    let evClose := ((s.procs p).ofile.filterMap id).map Ev.fileclose
    let s1 :=
      { s with
        procs := Function.update s.procs p
          { s.procs p with ofile := (s.procs p).ofile.map (fun _ => none) } }
    let cwd0 := (s1.procs p).cwd
    let s2 :=
      { s1 with
        procs := Function.update s1.procs p
          { s1.procs p with cwd := none } }
    let rep := reparent p s.initp s2
    let par := (rep.1.procs p).parent
    let s4 := wakeupOpt p par rep.1
    let s5 :=
      { s4 with
        procs := Function.update s4.procs p
          { s4.procs p with xstate := status, state := .ZOMBIE } }
    .ok (s5,
      evClose ++ [Ev.iput cwd0, Ev.acquireWait] ++ rep.2 ++
        [Ev.wakeupEv (par.map Fin.val), Ev.acquireLock p.val,
         Ev.releaseWait, Ev.schedEv])

/-- The per-CPU fields `sched` reads and writes (`struct cpu` in `proc.h`):
the `push_off` nesting depth and the saved interrupt-enable flag. -/
structure Cpu where
  noff : Nat
  intena : Bool
deriving DecidableEq, Repr

/-- While a thread is switched out in `swtch`, other threads run on the CPU
and leave `mycpu().intena` at some unrelated value; `sched` overwrites it
with the value saved in its local `intena` before the switch. -/
def restoreIntena (saved : Bool) (_afterSwtch : Bool) : Bool := saved

/-- `sched` from `src/kernel/c/proc.c` lines 289-307. Inputs are the
observations the code makes: `holding(p->lock)`, the CPU fields, the
slot's `state`, `intr_get()`, and the value `mycpu().intena` holds when
`swtch` returns control. `.error msg` is `panic(msg)`; `.ok b` means the
switch happened and `mycpu().intena` ends at `b`. -/
def sched (holdingLock : Bool) (c : Cpu) (st : PState) (intrOn : Bool)
    (intenaAfterSwtch : Bool) : Except String Bool :=
  if holdingLock = false then .error "sched p->lock"
  else if c.noff ≠ 1 then .error "sched locks"
  else if st = .RUNNING then .error "sched running"
  else if intrOn = true then .error "sched interruptible"
  else .ok (restoreIntena c.intena intenaAfterSwtch)

/-- `fdalloc` from `src/kernel/c/sysfile.c` lines 21-36, as a function of
the caller's `ofile` table: the first free (`0`) entry receives the file
and its index is returned; `none` is the `-1` of a full table. -/
def fdalloc (f : Nat) : List (Option Nat) → Option (Nat × List (Option Nat))
  | [] => none
  | none :: rest => some (0, some f :: rest)
  | some g :: rest =>
    match fdalloc f rest with
    | none => none
    | some (fd, l) => some (fd + 1, some g :: l)

/-- Result of `sys_pipe`: the C return value together with the caller's
resulting `ofile` table and the trace of `fileclose` calls. -/
inductive PipeRes where
  | ok (ofile : List (Option Nat)) (tr : List Ev)
  | fail (ofile : List (Option Nat)) (tr : List Ev)
deriving DecidableEq, Repr

/-- `sys_pipe` from `src/kernel/c/sysfile.c` lines 85-116. Oracles:
`argOk` for `argaddr`, `pipeOk` for `pipealloc` (which on success yields
the two file objects `rf`, `wf`), `co0`/`co1` for the two `copyout`s of
the descriptor numbers (their writes to user memory are outside the
claim's scope and not tracked). `.fail` is a `-1` return. -/
def sys_pipe (argOk pipeOk : Bool) (rf wf : Nat) (co0 co1 : Bool)
    (ofile : List (Option Nat)) : PipeRes :=
  if argOk = false then .fail ofile []
  else if pipeOk = false then .fail ofile []
  else
    match fdalloc rf ofile with
    | none => .fail ofile [Ev.fileclose rf, Ev.fileclose wf]
    | some (fd0, of1) =>
      match fdalloc wf of1 with
      | none => .fail (of1.set fd0 none) [Ev.fileclose rf, Ev.fileclose wf]
      | some (fd1, of2) =>
        if co0 = false ∨ co1 = false then
          .fail ((of2.set fd0 none).set fd1 none)
            [Ev.fileclose rf, Ev.fileclose wf]
        else .ok of2 []

/-! ## The multi-CPU scheduler / sleep-wakeup transition system

An interleaving model of `scheduler` (proc.c lines 252-280), `yield`
(lines 310-318), the state transitions of the lifecycle operations, and
the spec-modelled `sleep`/`wakeup`/`kill` (spec §4.5). Atomicity is at
the granularity of the per-slot spinlock critical sections: every access
the source makes to `p->state`, `p->chan` and `c->proc` happens with
`p->lock` held, and the stretch from a process's own state change in
`yield`/`sleep`/`exit` through the scheduler's `*c.proc = 0` after
`swtch` is a single critical section on that lock, so each such region
is one atomic step. -/

/-- The per-slot fields the scheduler system tracks: `state`, the sleep
channel (an arbitrary address, as a number) and the `killed` flag. -/
structure SSlot where
  st : PState
  chan : Nat
  killed : Bool
deriving DecidableEq, Repr

/-- System state: `n` process slots and `m` CPUs; `cpus k` is `c->proc`
of CPU `k`. -/
structure SchedState (n m : Nat) where
  procs : Fin n → SSlot
  cpus : Fin m → Option (Fin n)

/-- Atomic steps. `alloc`/`mkrun`/`unalloc` are `allocproc`, the
RUNNABLE-making ends of `userinit`/`fork`, and the failure-path
`freeproc`; `schedule` is the scheduler's critical section up to `swtch`;
`yield`/`sleep`/`exit` are the running process's state change through the
scheduler's `*c.proc = 0` after the switch back; `wakeup`/`kill` are the
spec-modelled operations; `reap` is a parent's `wait` freeing a zombie. -/
inductive Label (n m : Nat) where
  | alloc (i : Fin n)
  | mkrun (i : Fin n)
  | unalloc (i : Fin n)
  | schedule (k : Fin m) (i : Fin n)
  | yield (k : Fin m)
  | sleep (k : Fin m) (c : Nat)
  | exit (k : Fin m)
  | wakeup (c : Nat)
  | kill (i : Fin n)
  | reap (i : Fin n)
deriving DecidableEq

/-- One atomic step: `none` when the label's enabling condition (the
guard the source checks inside the critical section) fails.

* `schedule k i` — scheduler on CPU `k` (whose `c->proc` is 0 while it
  scans) finds slot `i` RUNNABLE, sets it RUNNING and points `c->proc`
  at it (proc.c lines 262-271).
* `yield k` / `sleep k c` / `exit k` — the process running on CPU `k`
  sets its state to RUNNABLE / SLEEPING on `c` / ZOMBIE and switches
  back, after which the scheduler clears `c->proc` (lines 271-275, 310-318,
  184-192, and spec §4.5 for `sleep`).
* `wakeup c` — every slot SLEEPING on channel `c` becomes RUNNABLE
  (spec §4.5).
* `kill i` — sets `killed` and promotes a SLEEPING slot to RUNNABLE
  (spec §4.5). -/
def applyL (l : Label n m) (s : SchedState n m) : Option (SchedState n m) :=
  match l with
  | .alloc i =>
    if (s.procs i).st = .UNUSED then
      some { s with
        procs := Function.update s.procs i { s.procs i with st := .USED } }
    else none
  | .mkrun i =>
    if (s.procs i).st = .USED then
      some { s with
        procs := Function.update s.procs i { s.procs i with st := .RUNNABLE } }
    else none
  | .unalloc i =>
    if (s.procs i).st = .USED then
      some { s with
        procs := Function.update s.procs i { s.procs i with st := .UNUSED } }
    else none
  | .schedule k i =>
    if s.cpus k = none ∧ (s.procs i).st = .RUNNABLE then
      some
        { procs := Function.update s.procs i { s.procs i with st := .RUNNING }
        , cpus := Function.update s.cpus k (some i) }
    else none
  | .yield k =>
    match s.cpus k with
    | some i =>
      if (s.procs i).st = .RUNNING then
        some
          { procs := Function.update s.procs i { s.procs i with st := .RUNNABLE }
          , cpus := Function.update s.cpus k none }
      else none
    | none => none
  | .sleep k c =>
    match s.cpus k with
    | some i =>
      if (s.procs i).st = .RUNNING then
        some
          { procs := Function.update s.procs i
              { s.procs i with st := .SLEEPING, chan := c }
          , cpus := Function.update s.cpus k none }
      else none
    | none => none
  | .exit k =>
    match s.cpus k with
    | some i =>
      if (s.procs i).st = .RUNNING then
        some
          { procs := Function.update s.procs i { s.procs i with st := .ZOMBIE }
          , cpus := Function.update s.cpus k none }
      else none
    | none => none
  | .wakeup c =>
    some { s with
      procs := fun j =>
        if (s.procs j).st = .SLEEPING ∧ (s.procs j).chan = c
        then { s.procs j with st := .RUNNABLE }
        else s.procs j }
  | .kill i =>
    if (s.procs i).st = .SLEEPING then
      some { s with
        procs := Function.update s.procs i
          { s.procs i with killed := true, st := .RUNNABLE } }
    else
      some { s with
        procs := Function.update s.procs i { s.procs i with killed := true } }
  | .reap i =>
    if (s.procs i).st = .ZOMBIE then
      some { s with
        procs := Function.update s.procs i { st := .UNUSED, chan := 0, killed := false } }
    else none

/-- The boot state of the scheduler system: all slots UNUSED, every CPU
in its scheduler loop (`c->proc = 0`). -/
def schedInit (n m : Nat) : SchedState n m :=
  { procs := fun _ => ⟨.UNUSED, 0, false⟩, cpus := fun _ => none }

/-- States reachable from boot. -/
inductive Reach (n m : Nat) : SchedState n m → Prop where
  | boot : Reach n m (schedInit n m)
  | step {s s' : SchedState n m} {l : Label n m} :
      Reach n m s → applyL l s = some s' → Reach n m s'

/-- The mutual-exclusion invariant: no two CPUs' `c->proc` point at the
same slot, and a slot is RUNNING exactly when some CPU's `c->proc`
points at it. -/
def SchedInv (s : SchedState n m) : Prop :=
  (∀ k1 k2 : Fin m, ∀ i : Fin n,
      s.cpus k1 = some i → s.cpus k2 = some i → k1 = k2) ∧
  (∀ i : Fin n, (s.procs i).st = .RUNNING ↔ ∃ k : Fin m, s.cpus k = some i)

/-- Run a list of steps in order; `none` if any step is disabled. -/
def runList (s : SchedState n m) : List (Label n m) → Option (SchedState n m)
  | [] => some s
  | l :: ls =>
    match applyL l s with
    | none => none
    | some s1 => runList s1 ls

/-! ### Concrete fixtures used by the witness theorems -/

/-- Junk contents of a freshly allocated trapframe page. -/
def tfJunk : Trapframe := ⟨11, 12, 13, 14⟩

/-- A running slot used in witness states. -/
def procRun (n : Nat) : Proc n :=
  { state := .RUNNING, pid := 3, parent := none, chan := none, killed := false
  , xstate := 0, sz := 42, pagetable := true, trapframe := ⟨7, 8, 9, 10⟩
  , name := "pa", ofile := [some 5, none], cwd := some 2 }

/-- Witness state for `fork`: slot 0 running, slot 1 free. -/
def sFork : KState 2 :=
  { procs := fun i => if i = 0 then procRun 2 else procZero 2
  , nextpid := 9, initp := none }

/-- Witness state with every slot occupied (NPROC = 1). -/
def sFull : KState 1 :=
  { procs := fun _ => procRun 1, nextpid := 9, initp := none }

/-- A zombie child of slot 0, exit status 42. -/
def procZomb : Proc 2 :=
  { state := .ZOMBIE, pid := 7, parent := some 0, chan := none, killed := false
  , xstate := 42, sz := 0, pagetable := false, trapframe := tfZero
  , name := "z", ofile := [], cwd := none }

/-- A sleeping child of slot 0. -/
def procSleep : Proc 2 :=
  { state := .SLEEPING, pid := 7, parent := some 0, chan := some 0, killed := false
  , xstate := 0, sz := 0, pagetable := true, trapframe := tfZero
  , name := "s", ofile := [], cwd := none }

/-- Witness state for `wait`: slot 0 running, slot 1 a zombie child. -/
def sWait : KState 2 :=
  { procs := fun i => if i = 0 then procRun 2 else procZomb
  , nextpid := 8, initp := none }

/-- Counterexample state: the caller (slot 0) has its killed flag set AND
has a zombie child (slot 1). -/
def sKZ : KState 2 :=
  { procs := fun i => if i = 0 then { procRun 2 with killed := true } else procZomb
  , nextpid := 8, initp := none }

/-- Witness state: killed caller with a (non-zombie) sleeping child. -/
def sKNZ : KState 2 :=
  { procs := fun i => if i = 0 then { procRun 2 with killed := true } else procSleep
  , nextpid := 8, initp := none }

/-- All-zero user memory. -/
def memZero : Mem := fun _ => 0

/-- The init slot for the `exit` witness: sleeping in `wait` on its own
slot channel. -/
def procInitSlot : Proc 2 :=
  { state := .SLEEPING, pid := 1, parent := none, chan := some 0
  , killed := false, xstate := 0, sz := PGSIZE, pagetable := true
  , trapframe := tfZero, name := "ini", ofile := [], cwd := some 1 }

/-- Witness state for `exit`: slot 0 is initproc (sleeping in `wait`),
slot 1 a running child of it with two ofile entries and a cwd. -/
def sExit : KState 2 :=
  { procs := fun i => if i = 0 then procInitSlot
      else { procRun 2 with parent := some 0 }
  , nextpid := 9, initp := some 0 }

/-- Scheduler-system witness state: slot 0 RUNNABLE, slot 1 free, one
idle CPU. -/
def sA : SchedState 2 1 :=
  ⟨fun i => if i = 0 then ⟨.RUNNABLE, 0, false⟩ else ⟨.UNUSED, 0, false⟩,
   fun _ => none⟩

/-- Scheduler-system witness state: slot 0 RUNNING on CPU 0. -/
def sB : SchedState 2 1 :=
  ⟨fun i => if i = 0 then ⟨.RUNNING, 0, false⟩ else ⟨.UNUSED, 0, false⟩,
   fun _ => some 0⟩

/-- Sleep/wakeup witness state: the only slot sleeps on channel 5. -/
def sD : SchedState 1 1 :=
  ⟨fun _ => ⟨.SLEEPING, 5, false⟩, fun _ => none⟩

/-! ## Theorems -/

/-- `firstUnused` really returns an UNUSED slot. -/
theorem firstUnused_spec {n : Nat} {s : KState n} {i : Fin n}
    (h : firstUnused s = some i) : (s.procs i).state = .UNUSED := by
  have := List.find?_some h
  simpa using this

/-- If no slot is UNUSED the scan fails. -/
theorem firstUnused_none {n : Nat} {s : KState n}
    (h : ∀ i, (s.procs i).state ≠ .UNUSED) : firstUnused s = none := by
  apply List.find?_eq_none.mpr
  intro i _
  simpa using h i

/-- Characterisation of a successful `allocproc`. -/
theorem allocproc_some {n : Nat} {ko : Bool} {tf0 : Trapframe}
    {s s1 : KState n} {i : Fin n}
    (h : allocproc ko tf0 s = some (i, s1)) :
    firstUnused s = some i ∧
    s1 = { s with
           procs := Function.update s.procs i
             { s.procs i with
               state := .USED, pid := s.nextpid, pagetable := true
             , trapframe := tf0 }
         , nextpid := s.nextpid + 1 } := by
  cases ko with
  | false => simp [allocproc] at h
  | true =>
    unfold allocproc at h
    cases hfu : firstUnused s with
    | none => rw [hfu] at h; simp at h
    | some j =>
      rw [hfu] at h
      simp only [Bool.not_true, Bool.false_eq_true, if_false, Option.some.injEq,
        Prod.mk.injEq] at h
      obtain ⟨h1, h2⟩ := h
      constructor
      · rw [h1]
      · rw [← h2, h1]

/-- **C2.** Every successful `fork` gives the child the parent's
trapframe verbatim except `a0 = 0`, the parent's `sz`, parent field set
to the caller, final state RUNNABLE, and returns the child's pid. -/
theorem fork_child_spec {n : Nat} (s : KState n) (p : Fin n)
    (ko : Bool) (tf0 : Trapframe) (uo : Bool) (r : Int) (s' : KState n)
    (hrun : (s.procs p).state = .RUNNING)
    (hfork : fork p ko tf0 uo s = (r, s'))
    (hsucc : r ≠ -1) :
    ∃ c : Fin n, c ≠ p ∧
      (s'.procs c).trapframe = { (s.procs p).trapframe with a0 := 0 } ∧
      (s'.procs c).sz = (s.procs p).sz ∧
      (s'.procs c).parent = some p ∧
      (s'.procs c).state = .RUNNABLE ∧
      r = ((s'.procs c).pid : Int) := by
  unfold fork at hfork
  cases halloc : allocproc ko tf0 s with
  | none =>
    rw [halloc] at hfork
    simp only [Prod.mk.injEq] at hfork
    exact absurd hfork.1.symm hsucc
  | some pr =>
    obtain ⟨np, s1⟩ := pr
    obtain ⟨hfu, hs1⟩ := allocproc_some halloc
    rw [halloc] at hfork
    cases uo with
    | false =>
      simp only [Bool.not_false, if_true, Prod.mk.injEq] at hfork
      exact absurd hfork.1.symm hsucc
    | true =>
      simp only [Bool.not_true, Bool.false_eq_true, if_false, Prod.mk.injEq] at hfork
      have hne : np ≠ p := by
        intro he
        have hu := firstUnused_spec hfu
        rw [he] at hu
        rw [hrun] at hu
        exact PState.noConfusion hu
      obtain ⟨hr, hs'⟩ := hfork
      subst hs'
      subst hs1
      refine ⟨np, hne, ?_, ?_, ?_, ?_, ?_⟩
      · simp [Function.update_same, Function.update_noteq (Ne.symm hne)]
      · simp [Function.update_same, Function.update_noteq (Ne.symm hne)]
      · simp [Function.update_same]
      · simp [Function.update_same]
      · simp only [Function.update_same] at hr ⊢
        exact hr.symm

/-- Witness for C2: in `sFork`, slot 0 (running, pid 3) forks; the child
is slot 1, gets pid 9 and the parent's trapframe with `a0 = 0`. -/
theorem fork_child_spec_witness :
    (sFork.procs 0).state = .RUNNING ∧
    (fork (0 : Fin 2) true tfJunk true sFork).1 ≠ -1 ∧
    (∃ c : Fin 2, c ≠ 0 ∧
      ((fork (0 : Fin 2) true tfJunk true sFork).2.procs c).trapframe
        = { (sFork.procs 0).trapframe with a0 := 0 } ∧
      ((fork (0 : Fin 2) true tfJunk true sFork).2.procs c).sz
        = (sFork.procs 0).sz ∧
      ((fork (0 : Fin 2) true tfJunk true sFork).2.procs c).parent = some 0 ∧
      ((fork (0 : Fin 2) true tfJunk true sFork).2.procs c).state = .RUNNABLE ∧
      (fork (0 : Fin 2) true tfJunk true sFork).1
        = (((fork (0 : Fin 2) true tfJunk true sFork).2.procs c).pid : Int)) :=
  ⟨rfl, by decide,
    fork_child_spec sFork 0 true tfJunk true
      (fork (0 : Fin 2) true tfJunk true sFork).1
      (fork (0 : Fin 2) true tfJunk true sFork).2
      rfl rfl (by decide)⟩

/-- **C3.** Failing `fork`s: with no UNUSED slot it returns −1 leaving
the state (hence every slot's state) untouched; when `uvmcopy` fails it
returns −1 with the freshly allocated child freed back to UNUSED and
every other slot untouched. -/
theorem fork_failure_spec {n : Nat} :
    (∀ (s : KState n) (p : Fin n) (ko : Bool) (tf0 : Trapframe) (uo : Bool),
      (∀ i, (s.procs i).state ≠ .UNUSED) → fork p ko tf0 uo s = (-1, s)) ∧
    (∀ (s : KState n) (p c : Fin n) (tf0 : Trapframe),
      firstUnused s = some c →
      (fork p true tf0 false s).1 = -1 ∧
      ((fork p true tf0 false s).2.procs c).state = .UNUSED ∧
      ∀ j, j ≠ c → (fork p true tf0 false s).2.procs j = s.procs j) := by
  constructor
  · intro s p ko tf0 uo hfull
    unfold fork
    cases ko with
    | false => simp [allocproc]
    | true => rw [show allocproc true tf0 s = none by
        unfold allocproc; rw [firstUnused_none hfull]; simp]
  · intro s p c tf0 hfu
    have halloc : allocproc true tf0 s =
        some (c, { s with
          procs := Function.update s.procs c
            { s.procs c with
              state := .USED, pid := s.nextpid, pagetable := true
            , trapframe := tf0 }
        , nextpid := s.nextpid + 1 }) := by
      unfold allocproc
      rw [hfu]
      simp
    refine ⟨?_, ?_, ?_⟩
    · unfold fork
      rw [halloc]
      rfl
    · unfold fork
      rw [halloc]
      simp [freeproc, Function.update_same]
    · intro j hj
      unfold fork
      rw [halloc]
      simp [freeproc, Function.update_noteq hj]

/-- Witness for C3: with NPROC = 1 fully occupied, `fork` fails and
leaves the state alone; in `sFork` with `uvmcopy` failing, the allocated
slot 1 ends UNUSED and slot 0 is untouched. -/
theorem fork_failure_spec_witness :
    ((∀ i, (sFull.procs i).state ≠ .UNUSED) ∧
      fork (0 : Fin 1) true tfJunk true sFull = (-1, sFull)) ∧
    (firstUnused sFork = some 1 ∧
      (fork (0 : Fin 2) true tfJunk false sFork).1 = -1 ∧
      ((fork (0 : Fin 2) true tfJunk false sFork).2.procs 1).state = .UNUSED ∧
      ∀ j, j ≠ (1 : Fin 2) →
        (fork (0 : Fin 2) true tfJunk false sFork).2.procs j = sFork.procs j) :=
  ⟨⟨by decide, fork_failure_spec.1 sFull 0 true tfJunk true (by decide)⟩,
   ⟨by decide, fork_failure_spec.2 sFork 0 1 tfJunk (by decide)⟩⟩

/-- **C1** (code bug in the name copy). After `userinit` runs at boot
(NPROC = 4, all slots zeroed and UNUSED, `nextpid = 1`), for any junk
trapframe page contents and any root inode: exactly one slot is
non-UNUSED, it has pid 1, state RUNNABLE, `sz = PGSIZE`, trapframe
`epc = 0` and `sp = PGSIZE`, and `initproc` refers to it — but its name
is `"ini"`, not the claimed `"initcode"`: `userinit` copies the name
with bound `sizeof(16) = sizeof(int) = 4`, so at most 3 characters
survive. -/
theorem userinit_boot_truncates_name (tf0 : Trapframe) (rootIno : Nat) :
    ∃ s' : KState 4,
      userinit true tf0 rootIno (bootState 4) = some s' ∧
      s'.initp = some 0 ∧
      (s'.procs 0).state = .RUNNABLE ∧
      (s'.procs 0).pid = 1 ∧
      (s'.procs 0).sz = PGSIZE ∧
      (s'.procs 0).trapframe.epc = 0 ∧
      (s'.procs 0).trapframe.sp = PGSIZE ∧
      (s'.procs 1).state = .UNUSED ∧
      (s'.procs 2).state = .UNUSED ∧
      (s'.procs 3).state = .UNUSED ∧
      (s'.procs 0).name = "ini" ∧
      (s'.procs 0).name ≠ "initcode" := by
  exact ⟨_, rfl, rfl, rfl, rfl, rfl, rfl, rfl, rfl, rfl, rfl, rfl,
    show ("ini" : String) ≠ "initcode" by decide⟩

/-- Whatever the scan reports as a zombie child really is one. -/
theorem waitScanGo_found {n : Nat} {p : Fin n} {s : KState n} :
    ∀ {l : List (Fin n)} {c : Fin n}, (waitScanGo p s l).2 = some c →
      (s.procs c).parent = some p ∧ (s.procs c).state = .ZOMBIE := by
  intro l
  induction l with
  | nil => intro c h; simp [waitScanGo] at h
  | cons i rest ih =>
    intro c h
    unfold waitScanGo at h
    by_cases hp : (s.procs i).parent = some p
    · rw [if_pos hp] at h
      by_cases hz : (s.procs i).state = .ZOMBIE
      · rw [if_pos hz] at h
        simp only [Option.some.injEq] at h
        subst h
        exact ⟨hp, hz⟩
      · rw [if_neg hz] at h
        exact ih h
    · rw [if_neg hp] at h
      exact ih h

/-- If some listed slot is a zombie child, the scan finds a zombie child. -/
theorem waitScanGo_some_of_zombie {n : Nat} {p : Fin n} {s : KState n}
    {z : Fin n} (hp : (s.procs z).parent = some p)
    (hz : (s.procs z).state = .ZOMBIE) :
    ∀ {l : List (Fin n)}, z ∈ l → ∃ c, (waitScanGo p s l).2 = some c := by
  intro l
  induction l with
  | nil => intro h; cases h
  | cons i rest ih =>
    intro hmem
    unfold waitScanGo
    by_cases hip : (s.procs i).parent = some p
    · rw [if_pos hip]
      by_cases hiz : (s.procs i).state = .ZOMBIE
      · rw [if_pos hiz]
        exact ⟨i, rfl⟩
      · rw [if_neg hiz]
        rcases List.mem_cons.mp hmem with he | hm
        · subst he; exact absurd hz hiz
        · exact ih hm
    · rw [if_neg hip]
      rcases List.mem_cons.mp hmem with he | hm
      · subst he; exact absurd hp hip
      · exact ih hm

/-- With no child among the listed slots, the scan reports nothing. -/
theorem waitScanGo_nokids {n : Nat} {p : Fin n} {s : KState n} :
    ∀ {l : List (Fin n)}, (∀ i ∈ l, (s.procs i).parent ≠ some p) →
      waitScanGo p s l = (false, none) := by
  intro l
  induction l with
  | nil => intro _; rfl
  | cons i rest ih =>
    intro h
    unfold waitScanGo
    rw [if_neg (h i (List.mem_cons_self i rest))]
    exact ih (fun j hj => h j (List.mem_cons_of_mem i hj))

/-- With no zombie child among the listed slots, the scan finds no zombie. -/
theorem waitScanGo_no_zombie {n : Nat} {p : Fin n} {s : KState n} :
    ∀ {l : List (Fin n)},
      (∀ i ∈ l, (s.procs i).parent = some p → (s.procs i).state ≠ .ZOMBIE) →
      (waitScanGo p s l).2 = none := by
  intro l
  induction l with
  | nil => intro _; rfl
  | cons i rest ih =>
    intro h
    unfold waitScanGo
    by_cases hip : (s.procs i).parent = some p
    · rw [if_pos hip, if_neg (h i (List.mem_cons_self i rest) hip)]
      exact ih (fun j hj => h j (List.mem_cons_of_mem i hj))
    · rw [if_neg hip]
      exact ih (fun j hj => h j (List.mem_cons_of_mem i hj))

/-- **C4.** When the caller has a zombie child and `copyout` succeeds,
`wait` returns a zombie child's pid, stores its `xstate` at `addr` when
`addr ≠ 0`, and frees the child's slot back to UNUSED. -/
theorem wait_reaps_zombie {n : Nat} (s : KState n) (p : Fin n) (addr : Nat)
    (mem : Mem)
    (hz : ∃ z, (s.procs z).parent = some p ∧ (s.procs z).state = .ZOMBIE) :
    ∃ c, (s.procs c).parent = some p ∧ (s.procs c).state = .ZOMBIE ∧
      wait p addr true s mem =
        .ret ((s.procs c).pid : Int) (freeproc c s)
          (if addr ≠ 0 then Function.update mem addr (s.procs c).xstate
           else mem) ∧
      ((freeproc c s).procs c).state = .UNUSED ∧
      (addr ≠ 0 →
        (Function.update mem addr (s.procs c).xstate) addr
          = (s.procs c).xstate) := by
  obtain ⟨z, hzp, hzs⟩ := hz
  obtain ⟨c, hc⟩ := waitScanGo_some_of_zombie hzp hzs (List.mem_finRange z)
  obtain ⟨hcp, hcs⟩ := waitScanGo_found hc
  refine ⟨c, hcp, hcs, ?_, ?_, ?_⟩
  · unfold wait
    rw [hc]
    simp
  · simp [freeproc, Function.update_same]
  · intro _
    simp [Function.update_same]

/-- Witness for C4: in `sWait` (slot 1 is a zombie child of slot 0 with
pid 7 and xstate 42), `wait` by slot 0 with `addr = 100` reaps it. -/
theorem wait_reaps_zombie_witness :
    ((sWait.procs 1).parent = some 0 ∧ (sWait.procs 1).state = .ZOMBIE) ∧
    (∃ c : Fin 2, (sWait.procs c).parent = some 0 ∧
      (sWait.procs c).state = .ZOMBIE ∧
      wait 0 100 true sWait memZero =
        .ret ((sWait.procs c).pid : Int) (freeproc c sWait)
          (if (100 : Nat) ≠ 0
           then Function.update memZero 100 (sWait.procs c).xstate
           else memZero) ∧
      ((freeproc c sWait).procs c).state = .UNUSED ∧
      ((100 : Nat) ≠ 0 →
        (Function.update memZero 100 (sWait.procs c).xstate) 100
          = (sWait.procs c).xstate)) :=
  ⟨⟨rfl, rfl⟩, wait_reaps_zombie sWait 0 100 memZero ⟨1, rfl, rfl⟩⟩

/-- **C5 counterexample.** The claim says `wait` returns −1 whenever the
caller's killed flag is set; but in `sKZ` the caller (slot 0) is killed
AND has a zombie child, and `wait` returns the child's pid 7, not −1:
the scan for zombie children runs before the killed check. -/
theorem wait_killed_zombie_cex :
    (sKZ.procs 0).killed = true ∧
    (wait (0 : Fin 2) 0 true sKZ memZero).retVal = some 7 ∧
    some (7 : Int) ≠ some (-1 : Int) :=
  ⟨rfl, rfl, by decide⟩

/-- **C5 (amended).** `wait` returns −1 without sleeping when the caller
has no children, or when the caller is killed and no child is ZOMBIE;
and when `copyout` of a zombie child's xstate fails (with `addr ≠ 0`),
it returns −1 with the state — in particular the zombie child's slot —
left untouched. -/
theorem wait_error_paths {n : Nat} (s : KState n) (p : Fin n) (addr : Nat)
    (coOk : Bool) (mem : Mem) :
    ((∀ i, (s.procs i).parent ≠ some p) →
      wait p addr coOk s mem = .ret (-1) s mem) ∧
    ((s.procs p).killed = true →
      (∀ i, (s.procs i).parent = some p → (s.procs i).state ≠ .ZOMBIE) →
      wait p addr coOk s mem = .ret (-1) s mem) ∧
    (∀ z, (s.procs z).parent = some p → (s.procs z).state = .ZOMBIE →
      addr ≠ 0 → wait p addr false s mem = .ret (-1) s mem) := by
  refine ⟨?_, ?_, ?_⟩
  · intro hnk
    have hscan := waitScanGo_nokids (p := p) (s := s)
      (l := List.finRange n) (fun i _ => hnk i)
    unfold wait
    rw [hscan]
    simp
  · intro hk hnz
    have hscan := waitScanGo_no_zombie (p := p) (s := s)
      (l := List.finRange n) (fun i _ => hnz i)
    unfold wait
    rw [hscan]
    rw [if_pos (Or.inr hk)]
  · intro z hzp hzs haddr
    obtain ⟨c, hc⟩ := waitScanGo_some_of_zombie hzp hzs (List.mem_finRange z)
    unfold wait
    rw [hc]
    simp [haddr]

/-- Witness for C5 (amended): `sFull` has no children of slot 0; `sKNZ`
has a killed caller whose only child sleeps; `sWait` has a zombie child
but `copyout` fails. All three runs return −1 without sleeping. -/
theorem wait_error_paths_witness :
    ((∀ i, (sFull.procs i).parent ≠ some 0) ∧
      wait 0 100 true sFull memZero = .ret (-1) sFull memZero) ∧
    ((sKNZ.procs 0).killed = true ∧
      (∀ i, (sKNZ.procs i).parent = some 0 → (sKNZ.procs i).state ≠ .ZOMBIE) ∧
      wait 0 100 true sKNZ memZero = .ret (-1) sKNZ memZero) ∧
    ((sWait.procs 1).parent = some 0 ∧ (sWait.procs 1).state = .ZOMBIE ∧
      (100 : Nat) ≠ 0 ∧
      wait 0 100 false sWait memZero = .ret (-1) sWait memZero) :=
  ⟨⟨by decide, (wait_error_paths sFull 0 100 true memZero).1 (by decide)⟩,
   ⟨rfl, by decide,
     (wait_error_paths sKNZ 0 100 true memZero).2.1 rfl (by decide)⟩,
   ⟨rfl, rfl, by decide,
     (wait_error_paths sWait 0 100 false memZero).2.2 1 rfl rfl (by decide)⟩⟩

/-- A slot-pool update whose new record keeps the `parent` field leaves
every slot's `parent` unchanged. -/
theorem update_keep_parent {n : Nat} {f : Fin n → Proc n} {p j : Fin n}
    {r : Proc n} (h : r.parent = (f p).parent) :
    (Function.update f p r j).parent = (f j).parent := by
  by_cases hj : j = p
  · subst hj; rw [Function.update_same, h]
  · rw [Function.update_noteq hj]

/-- Same for `ofile`. -/
theorem update_keep_ofile {n : Nat} {f : Fin n → Proc n} {p j : Fin n}
    {r : Proc n} (h : r.ofile = (f p).ofile) :
    (Function.update f p r j).ofile = (f j).ofile := by
  by_cases hj : j = p
  · subst hj; rw [Function.update_same, h]
  · rw [Function.update_noteq hj]

/-- Same for `cwd`. -/
theorem update_keep_cwd {n : Nat} {f : Fin n → Proc n} {p j : Fin n}
    {r : Proc n} (h : r.cwd = (f p).cwd) :
    (Function.update f p r j).cwd = (f j).cwd := by
  by_cases hj : j = p
  · subst hj; rw [Function.update_same, h]
  · rw [Function.update_noteq hj]

/-- `wakeup` only flips states: `parent` is untouched. -/
theorem wakeupOn_parent {n : Nat} (caller c : Fin n) (s : KState n)
    (j : Fin n) :
    ((wakeupOn caller c s).procs j).parent = (s.procs j).parent := by
  unfold wakeupOn
  dsimp only
  split <;> rfl

/-- `wakeup` only flips states: `ofile` is untouched. -/
theorem wakeupOn_ofile {n : Nat} (caller c : Fin n) (s : KState n)
    (j : Fin n) :
    ((wakeupOn caller c s).procs j).ofile = (s.procs j).ofile := by
  unfold wakeupOn
  dsimp only
  split <;> rfl

/-- `wakeup` only flips states: `cwd` is untouched. -/
theorem wakeupOn_cwd {n : Nat} (caller c : Fin n) (s : KState n)
    (j : Fin n) :
    ((wakeupOn caller c s).procs j).cwd = (s.procs j).cwd := by
  unfold wakeupOn
  dsimp only
  split <;> rfl

theorem wakeupOpt_parent {n : Nat} (caller : Fin n) (c : Option (Fin n))
    (s : KState n) (j : Fin n) :
    ((wakeupOpt caller c s).procs j).parent = (s.procs j).parent := by
  cases c with
  | none => rfl
  | some q => exact wakeupOn_parent caller q s j

theorem wakeupOpt_ofile {n : Nat} (caller : Fin n) (c : Option (Fin n))
    (s : KState n) (j : Fin n) :
    ((wakeupOpt caller c s).procs j).ofile = (s.procs j).ofile := by
  cases c with
  | none => rfl
  | some q => exact wakeupOn_ofile caller q s j

theorem wakeupOpt_cwd {n : Nat} (caller : Fin n) (c : Option (Fin n))
    (s : KState n) (j : Fin n) :
    ((wakeupOpt caller c s).procs j).cwd = (s.procs j).cwd := by
  cases c with
  | none => rfl
  | some q => exact wakeupOn_cwd caller q s j

/-- The slot update + wakeup performed for one reparented child moves
just that child's `parent` to `ip`. -/
theorem reparent_step_parent {n : Nat} (p i j : Fin n) (ip : Option (Fin n))
    (s : KState n) :
    ((wakeupOpt p ip
        { s with
          procs := Function.update s.procs i
            { s.procs i with parent := ip } }).procs j).parent
      = if j = i then ip else (s.procs j).parent := by
  rw [wakeupOpt_parent]
  by_cases hji : j = i
  · subst hji; simp [Function.update_same]
  · simp [Function.update_noteq hji, hji]

/-- The reparent loop never changes `ofile`. -/
theorem reparentGo_ofile {n : Nat} (p : Fin n) (ip : Option (Fin n)) :
    ∀ (l : List (Fin n)) (s : KState n) (j : Fin n),
      ((reparentGo p ip s l).1.procs j).ofile = (s.procs j).ofile := by
  intro l
  induction l with
  | nil => intro s j; rfl
  | cons i rest ih =>
    intro s j
    unfold reparentGo
    by_cases hp : (s.procs i).parent = some p
    · rw [if_pos hp]
      dsimp only
      rw [ih, wakeupOpt_ofile]
      by_cases hji : j = i
      · subst hji; simp [Function.update_same]
      · simp [Function.update_noteq hji]
    · rw [if_neg hp]
      exact ih s j

/-- The reparent loop never changes `cwd`. -/
theorem reparentGo_cwd {n : Nat} (p : Fin n) (ip : Option (Fin n)) :
    ∀ (l : List (Fin n)) (s : KState n) (j : Fin n),
      ((reparentGo p ip s l).1.procs j).cwd = (s.procs j).cwd := by
  intro l
  induction l with
  | nil => intro s j; rfl
  | cons i rest ih =>
    intro s j
    unfold reparentGo
    by_cases hp : (s.procs i).parent = some p
    · rw [if_pos hp]
      dsimp only
      rw [ih, wakeupOpt_cwd]
      by_cases hji : j = i
      · subst hji; simp [Function.update_same]
      · simp [Function.update_noteq hji]
    · rw [if_neg hp]
      exact ih s j

/-- Slots that are not children of `p` keep their parent across the
reparent loop. -/
theorem reparentGo_parent_other {n : Nat} (p : Fin n) (ip : Option (Fin n))
    (_hip : ip ≠ some p) :
    ∀ (l : List (Fin n)) (s : KState n) (j : Fin n),
      (s.procs j).parent ≠ some p →
      ((reparentGo p ip s l).1.procs j).parent = (s.procs j).parent := by
  intro l
  induction l with
  | nil => intro s j _; rfl
  | cons i rest ih =>
    intro s j hj
    unfold reparentGo
    by_cases hp : (s.procs i).parent = some p
    · rw [if_pos hp]
      dsimp only
      have hji : j ≠ i := fun he => hj (he ▸ hp)
      refine (ih _ j ?_).trans ?_
      · rw [reparent_step_parent, if_neg hji]
        exact hj
      · rw [reparent_step_parent, if_neg hji]
    · rw [if_neg hp]
      exact ih s j hj

/-- Children of `p` listed in the scan get parent `ip`. -/
theorem reparentGo_parent_set {n : Nat} (p : Fin n) (ip : Option (Fin n))
    (hip : ip ≠ some p) :
    ∀ (l : List (Fin n)) (s : KState n) (j : Fin n), j ∈ l →
      (s.procs j).parent = some p →
      ((reparentGo p ip s l).1.procs j).parent = ip := by
  intro l
  induction l with
  | nil => intro s j h; cases h
  | cons i rest ih =>
    intro s j hmem hj
    unfold reparentGo
    by_cases hp : (s.procs i).parent = some p
    · rw [if_pos hp]
      dsimp only
      by_cases hji : j = i
      · subst hji
        refine (reparentGo_parent_other p ip hip rest _ j ?_).trans ?_
        · rw [reparent_step_parent, if_pos rfl]
          exact hip
        · rw [reparent_step_parent, if_pos rfl]
      · exact ih _ j ((List.mem_cons.mp hmem).resolve_left hji)
          (by rw [reparent_step_parent, if_neg hji]; exact hj)
    · rw [if_neg hp]
      have hji : j ≠ i := fun he => hp (he ▸ hj)
      exact ih s j ((List.mem_cons.mp hmem).resolve_left hji) hj

/-- Full characterisation of parents after `reparent`. -/
theorem reparent_parent {n : Nat} (p : Fin n) (ip : Option (Fin n))
    (hip : ip ≠ some p) (s : KState n) (j : Fin n) :
    ((reparent p ip s).1.procs j).parent
      = if (s.procs j).parent = some p then ip else (s.procs j).parent := by
  by_cases h : (s.procs j).parent = some p
  · rw [if_pos h]
    exact reparentGo_parent_set p ip hip _ s j (List.mem_finRange j) h
  · rw [if_neg h]
    exact reparentGo_parent_other p ip hip _ s j h

/-- `reparent` leaves `ofile` alone. -/
theorem reparent_ofile {n : Nat} (p : Fin n) (ip : Option (Fin n))
    (s : KState n) (j : Fin n) :
    ((reparent p ip s).1.procs j).ofile = (s.procs j).ofile :=
  reparentGo_ofile p ip _ s j

/-- `reparent` leaves `cwd` alone. -/
theorem reparent_cwd {n : Nat} (p : Fin n) (ip : Option (Fin n))
    (s : KState n) (j : Fin n) :
    ((reparent p ip s).1.procs j).cwd = (s.procs j).cwd :=
  reparentGo_cwd p ip _ s j

/-- The reparent loop emits only wakeup events. -/
theorem reparentGo_events {n : Nat} (p : Fin n) (ip : Option (Fin n)) :
    ∀ (l : List (Fin n)) (s : KState n) (e : Ev),
      e ∈ (reparentGo p ip s l).2 → ∃ c, e = Ev.wakeupEv c := by
  intro l
  induction l with
  | nil => intro s e h; cases h
  | cons i rest ih =>
    intro s e h
    unfold reparentGo at h
    by_cases hp : (s.procs i).parent = some p
    · rw [if_pos hp] at h
      dsimp only at h
      rcases List.mem_cons.mp h with he | hm
      · exact ⟨ip.map Fin.val, he⟩
      · exact ih _ e hm
    · rw [if_neg hp] at h
      exact ih s e h

theorem reparent_events {n : Nat} (p : Fin n) (ip : Option (Fin n))
    (s : KState n) (e : Ev) :
    e ∈ (reparent p ip s).2 → ∃ c, e = Ev.wakeupEv c :=
  reparentGo_events p ip _ s e

/-- A list ending in four given elements ends in the last two. -/
theorem ends_with_pair (X : List Ev) (a b c d : Ev) :
    ∃ T1, X ++ [a, b, c, d] = T1 ++ [c, d] :=
  ⟨X ++ [a, b], by simp⟩

/-- **C6.** `exit` panics exactly for initproc; for anyone else it closes
and clears every open file, releases and clears cwd, reparents all
children to initproc, wakes the parent, stores the status in `xstate`,
goes ZOMBIE, and its final events are the release of `wait_lock`
immediately followed by `sched()` — the caller's own lock is never
released (the statement that the trace ends at the `sched` event is the
rendering of "never returns": the only code after it is the unreachable
`panic("zombie exit")`). -/
theorem exit_spec {n : Nat} (s : KState n) (p ip : Fin n) (status : Int)
    (hip : s.initp = some ip) :
    (exit ip status s = .error ()) ∧
    (p ≠ ip → (s.procs p).parent ≠ some p →
      ∃ S T, exit p status s = .ok (S, T) ∧
        (∀ f, some f ∈ (s.procs p).ofile → Ev.fileclose f ∈ T) ∧
        (∀ e ∈ (S.procs p).ofile, e = none) ∧
        (S.procs p).cwd = none ∧
        Ev.iput (s.procs p).cwd ∈ T ∧
        (∀ j, (s.procs j).parent = some p → (S.procs j).parent = some ip) ∧
        Ev.wakeupEv ((s.procs p).parent.map Fin.val) ∈ T ∧
        (S.procs p).xstate = status ∧
        (S.procs p).state = .ZOMBIE ∧
        (∃ T1, T = T1 ++ [Ev.releaseWait, Ev.schedEv]) ∧
        Ev.releaseLock p.val ∉ T) := by
  constructor
  · unfold exit
    rw [if_pos hip]
  · intro hpne hnoself
    have hips : (some ip : Option (Fin n)) ≠ some p :=
      fun h => hpne (Option.some.inj h).symm
    have hinitne : ¬ s.initp = some p := by
      rw [hip]
      exact hips
    unfold exit
    rw [if_neg hinitne, hip]
    refine ⟨_, _, rfl, ?_, ?_, ?_, ?_, ?_, ?_, ?_, ?_, ?_, ?_⟩
    · intro f hf
      have h1 : f ∈ (s.procs p).ofile.filterMap id :=
        List.mem_filterMap.mpr ⟨some f, hf, rfl⟩
      exact List.mem_append_left _ (List.mem_append_left _
        (List.mem_append_left _ (List.mem_map_of_mem _ h1)))
    · intro e he
      simp only [Function.update_same, wakeupOpt_ofile, reparent_ofile] at he
      rcases List.mem_map.mp he with ⟨a, _, rfl⟩
      rfl
    · simp only [Function.update_same, wakeupOpt_cwd, reparent_cwd]
    · simp only [Function.update_same]
      exact List.mem_append_left _ (List.mem_append_left _
        (List.mem_append_right _ (List.mem_cons_self _ _)))
    · intro j hj
      by_cases hjp : j = p
      · subst hjp
        simp only [Function.update_same, wakeupOpt_parent]
        rw [reparent_parent j _ hips]
        simp only [Function.update_same]
        rw [if_pos hj]
      · simp only [Function.update_noteq hjp, wakeupOpt_parent]
        rw [reparent_parent p _ hips]
        simp only [Function.update_noteq hjp]
        rw [if_pos hj]
    · rw [reparent_parent p _ hips]
      simp only [Function.update_same]
      rw [if_neg hnoself]
      exact List.mem_append_right _ (List.mem_cons_self _ _)
    · simp only [Function.update_same]
    · simp only [Function.update_same]
    · exact ends_with_pair _ _ _ _ _
    · intro hmem
      rcases List.mem_append.mp hmem with h | h
      · rcases List.mem_append.mp h with h2 | h2
        · rcases List.mem_append.mp h2 with h3 | h3
          · rcases List.mem_map.mp h3 with ⟨f, _, hf⟩
            exact Ev.noConfusion hf
          · simp at h3
        · rcases reparent_events _ _ _ _ h2 with ⟨c, hc⟩
          exact Ev.noConfusion hc
      · simp at h

/-- Witness for C6 in `sExit`: `exit` by initproc (slot 0) panics, and
`exit(5)` by slot 1 produces the claimed state and trace. -/
theorem exit_spec_witness :
    sExit.initp = some 0 ∧
    (1 : Fin 2) ≠ 0 ∧
    (sExit.procs 1).parent ≠ some 1 ∧
    exit (0 : Fin 2) 5 sExit = .error () ∧
    (∃ S T, exit (1 : Fin 2) 5 sExit = .ok (S, T) ∧
      (∀ f, some f ∈ (sExit.procs 1).ofile → Ev.fileclose f ∈ T) ∧
      (∀ e ∈ (S.procs 1).ofile, e = none) ∧
      (S.procs 1).cwd = none ∧
      Ev.iput (sExit.procs 1).cwd ∈ T ∧
      (∀ j, (sExit.procs j).parent = some 1 → (S.procs j).parent = some 0) ∧
      Ev.wakeupEv ((sExit.procs 1).parent.map Fin.val) ∈ T ∧
      (S.procs 1).xstate = 5 ∧
      (S.procs 1).state = .ZOMBIE ∧
      (∃ T1, T = T1 ++ [Ev.releaseWait, Ev.schedEv]) ∧
      Ev.releaseLock (1 : Fin 2).val ∉ T) :=
  ⟨rfl, by decide, by decide, (exit_spec sExit 1 0 5 rfl).1,
    (exit_spec sExit 1 0 5 rfl).2 (by decide) (by decide)⟩

/-- **C9.** `sched` panics exactly when a precondition fails — the lock
is not held, `noff ≠ 1`, the state is still RUNNING, or interrupts are
on — and otherwise preserves `cpu.intena` across the switch, whatever
value the switched-in threads leave there. -/
theorem sched_spec (hl : Bool) (c : Cpu) (st : PState) (io ia : Bool) :
    ((∃ msg, sched hl c st io ia = .error msg) ↔
      (hl = false ∨ c.noff ≠ 1 ∨ st = .RUNNING ∨ io = true)) ∧
    (hl = true → c.noff = 1 → st ≠ .RUNNING → io = false →
      sched hl c st io ia = .ok c.intena) := by
  constructor
  · cases hl <;> by_cases h2 : c.noff = 1 <;>
      by_cases h3 : st = PState.RUNNING <;> cases io <;>
      simp [sched, h2, h3, restoreIntena]
  · intro h1 h2 h3 h4
    subst h1
    subst h4
    simp [sched, h2, h3, restoreIntena]

/-- Witness for C9 at a concrete CPU: lock held, `noff = 1`, state
RUNNABLE, interrupts off; no panic and `intena` is preserved. -/
theorem sched_spec_witness :
    ((∃ msg, sched true ⟨1, true⟩ .RUNNABLE false false = .error msg) ↔
      (true = false ∨ (Cpu.mk 1 true).noff ≠ 1 ∨
        PState.RUNNABLE = .RUNNING ∨ false = true)) ∧
    sched true ⟨1, true⟩ .RUNNABLE false false = .ok (Cpu.mk 1 true).intena :=
  ⟨(sched_spec true ⟨1, true⟩ .RUNNABLE false false).1,
   (sched_spec true ⟨1, true⟩ .RUNNABLE false false).2 rfl rfl (by decide) rfl⟩

/-- Setting a list entry to the value it already holds changes nothing. -/
theorem set_of_getElem? {α : Type} :
    ∀ (l : List α) (i : Nat) (a : α), l[i]? = some a → l.set i a = l := by
  intro l
  induction l with
  | nil => intro i a h; simp at h
  | cons x xs ih =>
    intro i a h
    cases i with
    | zero =>
      simp only [List.getElem?_cons_zero, Option.some.injEq] at h
      subst h
      rfl
    | succ i2 =>
      simp only [List.getElem?_cons_succ] at h
      show x :: xs.set i2 a = x :: xs
      rw [ih i2 a h]

/-- `fdalloc` takes the lowest-numbered free entry and installs the file
there. -/
theorem fdalloc_some :
    ∀ (l : List (Option Nat)) (f fd : Nat) (l2 : List (Option Nat)),
      fdalloc f l = some (fd, l2) →
      l[fd]? = some none ∧ (∀ j, j < fd → l[j]? ≠ some none) ∧
      l2 = l.set fd (some f) := by
  intro l
  induction l with
  | nil => intro f fd l2 h; simp [fdalloc] at h
  | cons x xs ih =>
    intro f fd l2 h
    cases x with
    | none =>
      simp only [fdalloc, Option.some.injEq, Prod.mk.injEq] at h
      obtain ⟨rfl, rfl⟩ := h
      exact ⟨by simp, fun j hj => absurd hj (Nat.not_lt_zero j), by simp⟩
    | some g =>
      simp only [fdalloc] at h
      cases hrec : fdalloc f xs with
      | none => rw [hrec] at h; simp at h
      | some pr =>
        obtain ⟨fd0, l3⟩ := pr
        rw [hrec] at h
        simp only [Option.some.injEq, Prod.mk.injEq] at h
        obtain ⟨rfl, rfl⟩ := h
        obtain ⟨ha, hb, hc⟩ := ih f fd0 l3 hrec
        refine ⟨by simpa using ha, ?_, ?_⟩
        · intro j hj
          cases j with
          | zero => simp
          | succ j2 =>
            intro hcon
            exact hb j2 (Nat.lt_of_succ_lt_succ hj) (by simpa using hcon)
        · rw [hc]
          rfl

/-- `fdalloc` fails exactly when the table has no free entry. -/
theorem fdalloc_none_iff :
    ∀ (l : List (Option Nat)) (f : Nat), fdalloc f l = none ↔ none ∉ l := by
  intro l
  induction l with
  | nil => intro f; simp [fdalloc]
  | cons x xs ih =>
    intro f
    cases x with
    | none => simp [fdalloc]
    | some g =>
      simp only [fdalloc]
      cases hrec : fdalloc f xs with
      | none =>
        constructor
        · intro _ hmem
          rcases List.mem_cons.mp hmem with h | h
          · exact Option.noConfusion h
          · exact (ih f).mp hrec h
        · intro _
          rfl
      | some pr =>
        obtain ⟨fd, l2⟩ := pr
        constructor
        · intro h
          exact Option.noConfusion h
        · intro hmem
          have hnone : fdalloc f xs = none :=
            (ih f).mpr (fun h => hmem (List.mem_cons_of_mem _ h))
          exact absurd (hnone.symm.trans hrec) (fun h => Option.noConfusion h)

/-- **C10.** Every `sys_pipe` run that fails after `pipealloc` succeeded
closes both pipe files and hands back the caller's `ofile` table exactly
as it was; and `fdalloc` installs into the lowest free entry, failing
precisely when the table is full. -/
theorem sys_pipe_spec (ofile : List (Option Nat)) (rf wf : Nat)
    (co0 co1 : Bool) :
    (∀ of2 tr, sys_pipe true true rf wf co0 co1 ofile = .fail of2 tr →
      of2 = ofile ∧ Ev.fileclose rf ∈ tr ∧ Ev.fileclose wf ∈ tr) ∧
    (∀ f fd l2, fdalloc f ofile = some (fd, l2) →
      ofile[fd]? = some none ∧ (∀ j, j < fd → ofile[j]? ≠ some none) ∧
      l2 = ofile.set fd (some f)) ∧
    (∀ f, fdalloc f ofile = none ↔ none ∉ ofile) := by
  refine ⟨?_, fun f fd l2 h => fdalloc_some ofile f fd l2 h,
    fun f => fdalloc_none_iff ofile f⟩
  intro of2 tr h
  unfold sys_pipe at h
  rw [if_neg (show ¬(true = false) by decide)] at h
  rw [if_neg (show ¬(true = false) by decide)] at h
  cases h0 : fdalloc rf ofile with
  | none =>
    rw [h0] at h
    injection h with hof htr
    subst hof
    subst htr
    exact ⟨rfl, by simp, by simp⟩
  | some pr0 =>
    obtain ⟨fd0, l1⟩ := pr0
    rw [h0] at h
    dsimp only at h
    obtain ⟨ha0, _, hc0⟩ := fdalloc_some ofile rf fd0 l1 h0
    cases h1 : fdalloc wf l1 with
    | none =>
      rw [h1] at h
      injection h with hof htr
      subst hof
      subst htr
      refine ⟨?_, by simp, by simp⟩
      rw [hc0, List.set_set, set_of_getElem? ofile fd0 none ha0]
    | some pr1 =>
      obtain ⟨fd1, l2⟩ := pr1
      rw [h1] at h
      dsimp only at h
      obtain ⟨ha1, _, hc1⟩ := fdalloc_some l1 wf fd1 l2 h1
      by_cases hco : co0 = false ∨ co1 = false
      · rw [if_pos hco] at h
        injection h with hof htr
        subst hof
        subst htr
        obtain ⟨hlt, _⟩ := List.getElem?_eq_some_iff.mp ha0
        have hne : fd1 ≠ fd0 := by
          intro he
          rw [he, hc0, List.getElem?_set_self hlt] at ha1
          exact Option.noConfusion (Option.some.inj ha1)
        have hof1 : ofile[fd1]? = some none := by
          rw [← List.getElem?_set_ne (Ne.symm hne) (l := ofile) (a := some rf),
            ← hc0]
          exact ha1
        refine ⟨?_, by simp, by simp⟩
        calc (l2.set fd0 none).set fd1 none
            = (((ofile.set fd0 (some rf)).set fd1 (some wf)).set fd0 none).set
                fd1 none := by rw [hc1, hc0]
          _ = ((((ofile.set fd0 (some rf)).set fd0 none).set fd1 (some wf))).set
                fd1 none := by rw [List.set_comm _ _ _ hne]
          _ = ((ofile.set fd0 (some rf)).set fd0 none).set fd1 none := by
                rw [List.set_set]
          _ = (ofile.set fd0 none).set fd1 none := by rw [List.set_set]
          _ = ofile.set fd1 none := by
                rw [set_of_getElem? ofile fd0 none ha0]
          _ = ofile := set_of_getElem? ofile fd1 none hof1
      · rw [if_neg hco] at h
        exact PipeRes.noConfusion h

/-- Concrete `ofile` table for the C10 witness: fd 0 taken, 1 and 2 free. -/
def pipeTable : List (Option Nat) := [some 1, none, none]

/-- Witness for C10: with `pipeTable`, pipealloc succeeding and the first
`copyout` failing, `sys_pipe` fails, closes files 8 and 9 and restores
the table; `fdalloc 8` installs at the lowest free entry 1. -/
theorem sys_pipe_spec_witness :
    (sys_pipe true true 8 9 false true pipeTable
        = .fail pipeTable [Ev.fileclose 8, Ev.fileclose 9]) ∧
    (pipeTable = pipeTable ∧
      Ev.fileclose 8 ∈ [Ev.fileclose 8, Ev.fileclose 9] ∧
      Ev.fileclose 9 ∈ [Ev.fileclose 8, Ev.fileclose 9]) ∧
    (fdalloc 8 pipeTable = some (1, [some 1, some 8, none])) ∧
    (pipeTable[1]? = some none ∧
      (∀ j, j < 1 → pipeTable[j]? ≠ some none) ∧
      [some 1, some 8, none] = pipeTable.set 1 (some 8)) :=
  ⟨rfl,
   (sys_pipe_spec pipeTable 8 9 false true).1 pipeTable
     [Ev.fileclose 8, Ev.fileclose 9] rfl,
   rfl,
   (sys_pipe_spec pipeTable 8 9 false true).2.1 8 1 [some 1, some 8, none] rfl⟩

/-- Exhaustive characterisation of the enabled steps of the scheduler
system. -/
theorem applyL_cases {n m : Nat} {l : Label n m} {s s2 : SchedState n m}
    (h : applyL l s = some s2) :
    (∃ i, l = .alloc i ∧ (s.procs i).st = .UNUSED ∧
      s2 = ⟨Function.update s.procs i { s.procs i with st := .USED },
            s.cpus⟩) ∨
    (∃ i, l = .mkrun i ∧ (s.procs i).st = .USED ∧
      s2 = ⟨Function.update s.procs i { s.procs i with st := .RUNNABLE },
            s.cpus⟩) ∨
    (∃ i, l = .unalloc i ∧ (s.procs i).st = .USED ∧
      s2 = ⟨Function.update s.procs i { s.procs i with st := .UNUSED },
            s.cpus⟩) ∨
    (∃ k i, l = .schedule k i ∧ s.cpus k = none ∧
      (s.procs i).st = .RUNNABLE ∧
      s2 = ⟨Function.update s.procs i { s.procs i with st := .RUNNING },
            Function.update s.cpus k (some i)⟩) ∨
    (∃ k i, l = .yield k ∧ s.cpus k = some i ∧ (s.procs i).st = .RUNNING ∧
      s2 = ⟨Function.update s.procs i { s.procs i with st := .RUNNABLE },
            Function.update s.cpus k none⟩) ∨
    (∃ k i c, l = .sleep k c ∧ s.cpus k = some i ∧
      (s.procs i).st = .RUNNING ∧
      s2 = ⟨Function.update s.procs i
              { s.procs i with st := .SLEEPING, chan := c },
            Function.update s.cpus k none⟩) ∨
    (∃ k i, l = .exit k ∧ s.cpus k = some i ∧ (s.procs i).st = .RUNNING ∧
      s2 = ⟨Function.update s.procs i { s.procs i with st := .ZOMBIE },
            Function.update s.cpus k none⟩) ∨
    (∃ c, l = .wakeup c ∧
      s2 = ⟨fun j =>
              if (s.procs j).st = .SLEEPING ∧ (s.procs j).chan = c
              then { s.procs j with st := .RUNNABLE } else s.procs j,
            s.cpus⟩) ∨
    (∃ i, l = .kill i ∧ (s.procs i).st = .SLEEPING ∧
      s2 = ⟨Function.update s.procs i
              { s.procs i with killed := true, st := .RUNNABLE }, s.cpus⟩) ∨
    (∃ i, l = .kill i ∧ (s.procs i).st ≠ .SLEEPING ∧
      s2 = ⟨Function.update s.procs i { s.procs i with killed := true },
            s.cpus⟩) ∨
    (∃ i, l = .reap i ∧ (s.procs i).st = .ZOMBIE ∧
      s2 = ⟨Function.update s.procs i ⟨.UNUSED, 0, false⟩, s.cpus⟩) := by
  cases l with
  | alloc i =>
    simp only [applyL] at h
    by_cases hc : (s.procs i).st = .UNUSED
    · rw [if_pos hc] at h
      exact Or.inl ⟨i, rfl, hc, (Option.some.inj h).symm⟩
    · rw [if_neg hc] at h
      exact Option.noConfusion h
  | mkrun i =>
    simp only [applyL] at h
    by_cases hc : (s.procs i).st = .USED
    · rw [if_pos hc] at h
      exact Or.inr (Or.inl ⟨i, rfl, hc, (Option.some.inj h).symm⟩)
    · rw [if_neg hc] at h
      exact Option.noConfusion h
  | unalloc i =>
    simp only [applyL] at h
    by_cases hc : (s.procs i).st = .USED
    · rw [if_pos hc] at h
      exact Or.inr (Or.inr (Or.inl ⟨i, rfl, hc, (Option.some.inj h).symm⟩))
    · rw [if_neg hc] at h
      exact Option.noConfusion h
  | schedule k i =>
    simp only [applyL] at h
    by_cases hc : s.cpus k = none ∧ (s.procs i).st = .RUNNABLE
    · rw [if_pos hc] at h
      exact Or.inr (Or.inr (Or.inr (Or.inl
        ⟨k, i, rfl, hc.1, hc.2, (Option.some.inj h).symm⟩)))
    · rw [if_neg hc] at h
      exact Option.noConfusion h
  | yield k =>
    simp only [applyL] at h
    cases hck : s.cpus k with
    | none => rw [hck] at h; exact Option.noConfusion h
    | some i =>
      rw [hck] at h
      dsimp only at h
      by_cases hr : (s.procs i).st = .RUNNING
      · rw [if_pos hr] at h
        exact Or.inr (Or.inr (Or.inr (Or.inr (Or.inl
          ⟨k, i, rfl, hck, hr, (Option.some.inj h).symm⟩))))
      · rw [if_neg hr] at h
        exact Option.noConfusion h
  | sleep k c =>
    simp only [applyL] at h
    cases hck : s.cpus k with
    | none => rw [hck] at h; exact Option.noConfusion h
    | some i =>
      rw [hck] at h
      dsimp only at h
      by_cases hr : (s.procs i).st = .RUNNING
      · rw [if_pos hr] at h
        exact Or.inr (Or.inr (Or.inr (Or.inr (Or.inr (Or.inl
          ⟨k, i, c, rfl, hck, hr, (Option.some.inj h).symm⟩)))))
      · rw [if_neg hr] at h
        exact Option.noConfusion h
  | exit k =>
    simp only [applyL] at h
    cases hck : s.cpus k with
    | none => rw [hck] at h; exact Option.noConfusion h
    | some i =>
      rw [hck] at h
      dsimp only at h
      by_cases hr : (s.procs i).st = .RUNNING
      · rw [if_pos hr] at h
        exact Or.inr (Or.inr (Or.inr (Or.inr (Or.inr (Or.inr (Or.inl
          ⟨k, i, rfl, hck, hr, (Option.some.inj h).symm⟩))))))
      · rw [if_neg hr] at h
        exact Option.noConfusion h
  | wakeup c =>
    simp only [applyL] at h
    exact Or.inr (Or.inr (Or.inr (Or.inr (Or.inr (Or.inr (Or.inr (Or.inl
      ⟨c, rfl, (Option.some.inj h).symm⟩)))))))
  | kill i =>
    simp only [applyL] at h
    by_cases hc : (s.procs i).st = .SLEEPING
    · rw [if_pos hc] at h
      exact Or.inr (Or.inr (Or.inr (Or.inr (Or.inr (Or.inr (Or.inr (Or.inr
        (Or.inl ⟨i, rfl, hc, (Option.some.inj h).symm⟩))))))))
    · rw [if_neg hc] at h
      exact Or.inr (Or.inr (Or.inr (Or.inr (Or.inr (Or.inr (Or.inr (Or.inr
        (Or.inr (Or.inl ⟨i, rfl, hc, (Option.some.inj h).symm⟩)))))))))
  | reap i =>
    simp only [applyL] at h
    by_cases hc : (s.procs i).st = .ZOMBIE
    · rw [if_pos hc] at h
      exact Or.inr (Or.inr (Or.inr (Or.inr (Or.inr (Or.inr (Or.inr (Or.inr
        (Or.inr (Or.inr ⟨i, rfl, hc, (Option.some.inj h).symm⟩)))))))))
    · rw [if_neg hc] at h
      exact Option.noConfusion h

/-- The invariant survives steps that keep `c->proc` and the RUNNING-ness
of every slot. -/
theorem inv_keep {n m : Nat} {s : SchedState n m} (hinv : SchedInv s)
    (procs2 : Fin n → SSlot)
    (hst : ∀ j, (procs2 j).st = .RUNNING ↔ (s.procs j).st = .RUNNING) :
    SchedInv ⟨procs2, s.cpus⟩ := by
  constructor
  · intro k1 k2 i h1 h2
    exact hinv.1 k1 k2 i h1 h2
  · intro i
    exact (hst i).trans (hinv.2 i)

/-- The invariant survives a switch-out step: the slot running on `k0`
moves to a non-RUNNING state and `c->proc` is cleared. -/
theorem inv_out {n m : Nat} {s : SchedState n m} (hinv : SchedInv s)
    {k0 : Fin m} {i0 : Fin n} (hck : s.cpus k0 = some i0)
    (r : SSlot) (hr : r.st ≠ .RUNNING) :
    SchedInv ⟨Function.update s.procs i0 r,
              Function.update s.cpus k0 none⟩ := by
  constructor
  · intro k1 k2 i h1 h2
    dsimp only at h1 h2
    by_cases h1k : k1 = k0
    · subst h1k
      rw [Function.update_same] at h1
      exact Option.noConfusion h1
    · by_cases h2k : k2 = k0
      · subst h2k
        rw [Function.update_same] at h2
        exact Option.noConfusion h2
      · rw [Function.update_noteq h1k] at h1
        rw [Function.update_noteq h2k] at h2
        exact hinv.1 k1 k2 i h1 h2
  · intro i
    dsimp only
    by_cases hi : i = i0
    · subst hi
      rw [Function.update_same]
      constructor
      · intro hrr
        exact absurd hrr hr
      · rintro ⟨k, hk⟩
        try dsimp only at hk
        by_cases hkk : k = k0
        · subst hkk
          rw [Function.update_same] at hk
          exact Option.noConfusion hk
        · rw [Function.update_noteq hkk] at hk
          exact absurd (hinv.1 k k0 i hk hck) hkk
    · rw [Function.update_noteq hi]
      constructor
      · intro hrr
        obtain ⟨k, hk⟩ := (hinv.2 i).mp hrr
        have hkk : k ≠ k0 := by
          intro he
          subst he
          rw [hck] at hk
          exact hi (Option.some.inj hk).symm
        exact ⟨k, by rw [Function.update_noteq hkk]; exact hk⟩
      · rintro ⟨k, hk⟩
        try dsimp only at hk
        by_cases hkk : k = k0
        · subst hkk
          rw [Function.update_same] at hk
          exact Option.noConfusion hk
        · rw [Function.update_noteq hkk] at hk
          exact (hinv.2 i).mpr ⟨k, hk⟩

/-- The invariant survives the scheduler's dispatch step. -/
theorem inv_schedule {n m : Nat} {s : SchedState n m} (hinv : SchedInv s)
    {k0 : Fin m} {i0 : Fin n} (hck : s.cpus k0 = none)
    (hrb : (s.procs i0).st = .RUNNABLE) :
    SchedInv ⟨Function.update s.procs i0 { s.procs i0 with st := .RUNNING },
              Function.update s.cpus k0 (some i0)⟩ := by
  have hnr : ¬ (s.procs i0).st = .RUNNING := by
    rw [hrb]
    exact fun h => PState.noConfusion h
  have hnoc : ∀ k, s.cpus k ≠ some i0 := fun k hk =>
    hnr ((hinv.2 i0).mpr ⟨k, hk⟩)
  constructor
  · intro k1 k2 i h1 h2
    dsimp only at h1 h2
    by_cases h1k : k1 = k0
    · by_cases h2k : k2 = k0
      · subst h1k
        subst h2k
        rfl
      · subst h1k
        rw [Function.update_same] at h1
        rw [Function.update_noteq h2k] at h2
        have hii : i = i0 := (Option.some.inj h1).symm
        subst hii
        exact absurd h2 (hnoc k2)
    · by_cases h2k : k2 = k0
      · subst h2k
        rw [Function.update_same] at h2
        rw [Function.update_noteq h1k] at h1
        have hii : i = i0 := (Option.some.inj h2).symm
        subst hii
        exact absurd h1 (hnoc k1)
      · rw [Function.update_noteq h1k] at h1
        rw [Function.update_noteq h2k] at h2
        exact hinv.1 k1 k2 i h1 h2
  · intro i
    dsimp only
    by_cases hi : i = i0
    · subst hi
      rw [Function.update_same]
      constructor
      · intro _
        exact ⟨k0, by rw [Function.update_same]⟩
      · intro _
        rfl
    · rw [Function.update_noteq hi]
      constructor
      · intro hrr
        obtain ⟨k, hk⟩ := (hinv.2 i).mp hrr
        have hkk : k ≠ k0 := by
          intro he
          subst he
          rw [hck] at hk
          exact Option.noConfusion hk
        exact ⟨k, by rw [Function.update_noteq hkk]; exact hk⟩
      · rintro ⟨k, hk⟩
        try dsimp only at hk
        by_cases hkk : k = k0
        · subst hkk
          rw [Function.update_same] at hk
          exact absurd (Option.some.inj hk).symm hi
        · rw [Function.update_noteq hkk] at hk
          exact (hinv.2 i).mpr ⟨k, hk⟩

/-- Every enabled step preserves the mutual-exclusion invariant. -/
theorem applyL_inv {n m : Nat} {s s2 : SchedState n m} {l : Label n m}
    (hinv : SchedInv s) (h : applyL l s = some s2) : SchedInv s2 := by
  rcases applyL_cases h with
    ⟨i, _, hc, rfl⟩ | ⟨i, _, hc, rfl⟩ | ⟨i, _, hc, rfl⟩ |
    ⟨k, i, _, hck, hc, rfl⟩ | ⟨k, i, _, hck, hc, rfl⟩ |
    ⟨k, i, c, _, hck, hc, rfl⟩ | ⟨k, i, _, hck, hc, rfl⟩ |
    ⟨c, _, rfl⟩ | ⟨i, _, hc, rfl⟩ | ⟨i, _, hc, rfl⟩ | ⟨i, _, hc, rfl⟩
  · refine inv_keep hinv _ (fun j => ?_)
    by_cases hj : j = i
    · subst hj
      rw [Function.update_same]
      simp [hc]
    · rw [Function.update_noteq hj]
  · refine inv_keep hinv _ (fun j => ?_)
    by_cases hj : j = i
    · subst hj
      rw [Function.update_same]
      simp [hc]
    · rw [Function.update_noteq hj]
  · refine inv_keep hinv _ (fun j => ?_)
    by_cases hj : j = i
    · subst hj
      rw [Function.update_same]
      simp [hc]
    · rw [Function.update_noteq hj]
  · exact inv_schedule hinv hck hc
  · exact inv_out hinv hck _ (fun hcon => PState.noConfusion hcon)
  · exact inv_out hinv hck _ (fun hcon => PState.noConfusion hcon)
  · exact inv_out hinv hck _ (fun hcon => PState.noConfusion hcon)
  · refine inv_keep hinv _ (fun j => ?_)
    by_cases hcond : (s.procs j).st = .SLEEPING ∧ (s.procs j).chan = c
    · rw [if_pos hcond]
      simp [hcond.1]
    · rw [if_neg hcond]
  · refine inv_keep hinv _ (fun j => ?_)
    by_cases hj : j = i
    · subst hj
      rw [Function.update_same]
      simp [hc]
    · rw [Function.update_noteq hj]
  · refine inv_keep hinv _ (fun j => ?_)
    by_cases hj : j = i
    · subst hj
      rw [Function.update_same]
    · rw [Function.update_noteq hj]
  · refine inv_keep hinv _ (fun j => ?_)
    by_cases hj : j = i
    · subst hj
      rw [Function.update_same]
      simp [hc]
    · rw [Function.update_noteq hj]

/-- The boot state satisfies the invariant. -/
theorem schedInit_inv (n m : Nat) : SchedInv (schedInit n m) := by
  constructor
  · intro k1 k2 i h1 _
    exact Option.noConfusion h1
  · intro i
    constructor
    · intro h
      exact PState.noConfusion h
    · rintro ⟨k, hk⟩
      exact Option.noConfusion hk

/-- Every reachable state satisfies the invariant. -/
theorem reach_inv {n m : Nat} {s : SchedState n m} (h : Reach n m s) :
    SchedInv s := by
  induction h with
  | boot => exact schedInit_inv n m
  | step _ happ ih => exact applyL_inv ih happ

/-- **C7.** In every reachable state: no slot is pointed at by two CPUs,
and a slot is RUNNING exactly when exactly one CPU's `c->proc` points at
it; moreover a slot becomes RUNNING only through the scheduler's dispatch
step from RUNNABLE, and every switch-back step (yield / sleep / exit)
clears the CPU's `c->proc`. -/
theorem scheduler_mutex_spec {n m : Nat} :
    (∀ s : SchedState n m, Reach n m s →
      (∀ k1 k2 : Fin m, ∀ i : Fin n,
        s.cpus k1 = some i → s.cpus k2 = some i → k1 = k2) ∧
      (∀ i : Fin n, (s.procs i).st = .RUNNING ↔
        ∃! k : Fin m, s.cpus k = some i)) ∧
    (∀ (s s2 : SchedState n m) (l : Label n m) (i : Fin n),
      applyL l s = some s2 →
      (s.procs i).st ≠ .RUNNING → (s2.procs i).st = .RUNNING →
      (s.procs i).st = .RUNNABLE ∧
        ∃ k, l = .schedule k i ∧ s2.cpus k = some i) ∧
    (∀ (s s2 : SchedState n m) (k : Fin m) (l : Label n m),
      applyL l s = some s2 →
      (l = .yield k ∨ (∃ c, l = .sleep k c) ∨ l = .exit k) →
      s2.cpus k = none) := by
  refine ⟨?_, ?_, ?_⟩
  · intro s hreach
    have hinv := reach_inv hreach
    refine ⟨hinv.1, fun i => ⟨fun hr => ?_, fun hex => ?_⟩⟩
    · obtain ⟨k, hk⟩ := (hinv.2 i).mp hr
      exact ⟨k, hk, fun k2 hk2 => hinv.1 k2 k i hk2 hk⟩
    · obtain ⟨k, hk, _⟩ := hex
      exact (hinv.2 i).mpr ⟨k, hk⟩
  · intro s s2 l i happ hnr hr2
    rcases applyL_cases happ with
      ⟨i0, rfl, hg, rfl⟩ | ⟨i0, rfl, hg, rfl⟩ | ⟨i0, rfl, hg, rfl⟩ |
      ⟨k0, i0, rfl, hck, hg, rfl⟩ | ⟨k0, i0, rfl, hck, hg, rfl⟩ |
      ⟨k0, i0, c, rfl, hck, hg, rfl⟩ | ⟨k0, i0, rfl, hck, hg, rfl⟩ |
      ⟨c, rfl, rfl⟩ | ⟨i0, rfl, hg, rfl⟩ | ⟨i0, rfl, hg, rfl⟩ |
      ⟨i0, rfl, hg, rfl⟩
    · dsimp only at hr2
      by_cases hji : i = i0
      · subst hji
        rw [Function.update_same] at hr2
        exact absurd hr2 (fun hcon => PState.noConfusion hcon)
      · rw [Function.update_noteq hji] at hr2
        exact absurd hr2 hnr
    · dsimp only at hr2
      by_cases hji : i = i0
      · subst hji
        rw [Function.update_same] at hr2
        exact absurd hr2 (fun hcon => PState.noConfusion hcon)
      · rw [Function.update_noteq hji] at hr2
        exact absurd hr2 hnr
    · dsimp only at hr2
      by_cases hji : i = i0
      · subst hji
        rw [Function.update_same] at hr2
        exact absurd hr2 (fun hcon => PState.noConfusion hcon)
      · rw [Function.update_noteq hji] at hr2
        exact absurd hr2 hnr
    · dsimp only at hr2
      by_cases hji : i = i0
      · subst hji
        exact ⟨hg, k0, rfl, by dsimp only; rw [Function.update_same]⟩
      · rw [Function.update_noteq hji] at hr2
        exact absurd hr2 hnr
    · dsimp only at hr2
      by_cases hji : i = i0
      · subst hji
        rw [Function.update_same] at hr2
        exact absurd hr2 (fun hcon => PState.noConfusion hcon)
      · rw [Function.update_noteq hji] at hr2
        exact absurd hr2 hnr
    · dsimp only at hr2
      by_cases hji : i = i0
      · subst hji
        rw [Function.update_same] at hr2
        exact absurd hr2 (fun hcon => PState.noConfusion hcon)
      · rw [Function.update_noteq hji] at hr2
        exact absurd hr2 hnr
    · dsimp only at hr2
      by_cases hji : i = i0
      · subst hji
        rw [Function.update_same] at hr2
        exact absurd hr2 (fun hcon => PState.noConfusion hcon)
      · rw [Function.update_noteq hji] at hr2
        exact absurd hr2 hnr
    · dsimp only at hr2
      by_cases hcond : (s.procs i).st = .SLEEPING ∧ (s.procs i).chan = c
      · rw [if_pos hcond] at hr2
        exact absurd hr2 (fun hcon => PState.noConfusion hcon)
      · rw [if_neg hcond] at hr2
        exact absurd hr2 hnr
    · dsimp only at hr2
      by_cases hji : i = i0
      · subst hji
        rw [Function.update_same] at hr2
        exact absurd hr2 (fun hcon => PState.noConfusion hcon)
      · rw [Function.update_noteq hji] at hr2
        exact absurd hr2 hnr
    · dsimp only at hr2
      by_cases hji : i = i0
      · subst hji
        rw [Function.update_same] at hr2
        exact absurd hr2 hnr
      · rw [Function.update_noteq hji] at hr2
        exact absurd hr2 hnr
    · dsimp only at hr2
      by_cases hji : i = i0
      · subst hji
        rw [Function.update_same] at hr2
        exact absurd hr2 (fun hcon => PState.noConfusion hcon)
      · rw [Function.update_noteq hji] at hr2
        exact absurd hr2 hnr
  · intro s s2 k l happ hdisj
    rcases hdisj with rfl | ⟨c, rfl⟩ | rfl
    · simp only [applyL] at happ
      cases hck : s.cpus k with
      | none => rw [hck] at happ; exact Option.noConfusion happ
      | some i =>
        rw [hck] at happ
        dsimp only at happ
        by_cases hr : (s.procs i).st = .RUNNING
        · rw [if_pos hr] at happ
          obtain rfl := Option.some.inj happ
          dsimp only
          rw [Function.update_same]
        · rw [if_neg hr] at happ
          exact Option.noConfusion happ
    · simp only [applyL] at happ
      cases hck : s.cpus k with
      | none => rw [hck] at happ; exact Option.noConfusion happ
      | some i =>
        rw [hck] at happ
        dsimp only at happ
        by_cases hr : (s.procs i).st = .RUNNING
        · rw [if_pos hr] at happ
          obtain rfl := Option.some.inj happ
          dsimp only
          rw [Function.update_same]
        · rw [if_neg hr] at happ
          exact Option.noConfusion happ
    · simp only [applyL] at happ
      cases hck : s.cpus k with
      | none => rw [hck] at happ; exact Option.noConfusion happ
      | some i =>
        rw [hck] at happ
        dsimp only at happ
        by_cases hr : (s.procs i).st = .RUNNING
        · rw [if_pos hr] at happ
          obtain rfl := Option.some.inj happ
          dsimp only
          rw [Function.update_same]
        · rw [if_neg hr] at happ
          exact Option.noConfusion happ

/-- Witness for C7: the boot state (2 slots, 1 CPU) satisfies the
invariant; dispatching slot 0 on CPU 0 from `sA` is the RUNNABLE→RUNNING
step; yielding from `sB` clears `c->proc`. -/
theorem scheduler_mutex_spec_witness :
    ((∀ k1 k2 : Fin 1, ∀ i : Fin 2,
        (schedInit 2 1).cpus k1 = some i → (schedInit 2 1).cpus k2 = some i →
        k1 = k2) ∧
      (∀ i : Fin 2, ((schedInit 2 1).procs i).st = .RUNNING ↔
        ∃! k : Fin 1, (schedInit 2 1).cpus k = some i)) ∧
    (∃ s2, applyL (Label.schedule (0 : Fin 1) (0 : Fin 2)) sA = some s2 ∧
      (sA.procs 0).st = .RUNNABLE ∧
      (∃ k, (Label.schedule (0 : Fin 1) (0 : Fin 2)) = .schedule k 0 ∧
        s2.cpus k = some 0)) ∧
    (∃ s2, applyL (Label.yield (n := 2) (0 : Fin 1)) sB = some s2 ∧
      s2.cpus 0 = none) := by
  refine ⟨scheduler_mutex_spec.1 (schedInit 2 1) Reach.boot, ?_, ?_⟩
  · refine ⟨_, rfl, ?_⟩
    exact scheduler_mutex_spec.2.1 sA _ (Label.schedule 0 0) 0 rfl
      (by decide) (by decide)
  · refine ⟨_, rfl, ?_⟩
    exact scheduler_mutex_spec.2.2 sB _ 0 (Label.yield 0) rfl (Or.inl rfl)

/-- A sleeping slot is untouched by any step except one that makes it
RUNNABLE (a wakeup on its channel or a kill). -/
theorem sleeping_step {n m : Nat} {s s2 : SchedState n m} {l : Label n m}
    {i : Fin n} {c : Nat}
    (hs : (s.procs i).st = .SLEEPING) (hc : (s.procs i).chan = c)
    (h : applyL l s = some s2) :
    ((s2.procs i).st = .SLEEPING ∧ (s2.procs i).chan = c) ∨
    (s2.procs i).st = .RUNNABLE := by
  rcases applyL_cases h with
    ⟨i0, _, hg, rfl⟩ | ⟨i0, _, hg, rfl⟩ | ⟨i0, _, hg, rfl⟩ |
    ⟨k0, i0, _, hck, hg, rfl⟩ | ⟨k0, i0, _, hck, hg, rfl⟩ |
    ⟨k0, i0, c2, _, hck, hg, rfl⟩ | ⟨k0, i0, _, hck, hg, rfl⟩ |
    ⟨c2, _, rfl⟩ | ⟨i0, _, hg, rfl⟩ | ⟨i0, _, hg, rfl⟩ |
    ⟨i0, _, hg, rfl⟩
  · left
    have hji : i ≠ i0 := fun he => by
      rw [he, hg] at hs
      exact PState.noConfusion hs
    dsimp only
    rw [Function.update_noteq hji]
    exact ⟨hs, hc⟩
  · left
    have hji : i ≠ i0 := fun he => by
      rw [he, hg] at hs
      exact PState.noConfusion hs
    dsimp only
    rw [Function.update_noteq hji]
    exact ⟨hs, hc⟩
  · left
    have hji : i ≠ i0 := fun he => by
      rw [he, hg] at hs
      exact PState.noConfusion hs
    dsimp only
    rw [Function.update_noteq hji]
    exact ⟨hs, hc⟩
  · left
    have hji : i ≠ i0 := fun he => by
      rw [he, hg] at hs
      exact PState.noConfusion hs
    dsimp only
    rw [Function.update_noteq hji]
    exact ⟨hs, hc⟩
  · left
    have hji : i ≠ i0 := fun he => by
      rw [he, hg] at hs
      exact PState.noConfusion hs
    dsimp only
    rw [Function.update_noteq hji]
    exact ⟨hs, hc⟩
  · left
    have hji : i ≠ i0 := fun he => by
      rw [he, hg] at hs
      exact PState.noConfusion hs
    dsimp only
    rw [Function.update_noteq hji]
    exact ⟨hs, hc⟩
  · left
    have hji : i ≠ i0 := fun he => by
      rw [he, hg] at hs
      exact PState.noConfusion hs
    dsimp only
    rw [Function.update_noteq hji]
    exact ⟨hs, hc⟩
  · dsimp only
    by_cases hcond : (s.procs i).st = .SLEEPING ∧ (s.procs i).chan = c2
    · right
      rw [if_pos hcond]
    · left
      rw [if_neg hcond]
      exact ⟨hs, hc⟩
  · by_cases hji : i = i0
    · right
      subst hji
      dsimp only
      rw [Function.update_same]
    · left
      dsimp only
      rw [Function.update_noteq hji]
      exact ⟨hs, hc⟩
  · left
    have hji : i ≠ i0 := fun he => by
      rw [← he] at hg
      exact hg hs
    dsimp only
    rw [Function.update_noteq hji]
    exact ⟨hs, hc⟩
  · left
    have hji : i ≠ i0 := fun he => by
      rw [he, hg] at hs
      exact PState.noConfusion hs
    dsimp only
    rw [Function.update_noteq hji]
    exact ⟨hs, hc⟩

/-- A wakeup on exactly the sleeper's channel makes it RUNNABLE. -/
theorem wakeup_hits {n m : Nat} {s s2 : SchedState n m} {i : Fin n}
    {c : Nat}
    (hs : (s.procs i).st = .SLEEPING) (hc : (s.procs i).chan = c)
    (h : applyL (Label.wakeup (n := n) (m := m) c) s = some s2) :
    (s2.procs i).st = .RUNNABLE := by
  simp only [applyL] at h
  obtain rfl := Option.some.inj h
  dsimp only
  rw [if_pos ⟨hs, hc⟩]

/-- **C8.** No lost wakeups: once a sleeper has committed (its slot is
SLEEPING on channel `c`, the state it holds from releasing the condition
lock until woken), (a) every step either leaves it committed or makes it
RUNNABLE — so any wakeup on any CPU finds it SLEEPING or RUNNABLE, never
gone; (b) a `wakeup c` step itself makes it RUNNABLE; and (c) along any
run that contains a `wakeup c` step, the sleeper is RUNNABLE after some
prefix of the run. -/
theorem no_lost_wakeup {n m : Nat} :
    (∀ (s s2 : SchedState n m) (l : Label n m) (i : Fin n) (c : Nat),
      (s.procs i).st = .SLEEPING → (s.procs i).chan = c →
      applyL l s = some s2 →
      ((s2.procs i).st = .SLEEPING ∧ (s2.procs i).chan = c) ∨
      (s2.procs i).st = .RUNNABLE) ∧
    (∀ (s s2 : SchedState n m) (i : Fin n) (c : Nat),
      (s.procs i).st = .SLEEPING → (s.procs i).chan = c →
      applyL (Label.wakeup (n := n) (m := m) c) s = some s2 →
      (s2.procs i).st = .RUNNABLE) ∧
    (∀ (ls : List (Label n m)) (s s2 : SchedState n m) (i : Fin n) (c : Nat),
      (s.procs i).st = .SLEEPING → (s.procs i).chan = c →
      Label.wakeup c ∈ ls → runList s ls = some s2 →
      ∃ j, j ≤ ls.length ∧ ∃ sk, runList s (ls.take j) = some sk ∧
        (sk.procs i).st = .RUNNABLE) := by
  refine ⟨fun s s2 l i c hs hc h => sleeping_step hs hc h,
    fun s s2 i c hs hc h => wakeup_hits hs hc h, ?_⟩
  intro ls
  induction ls with
  | nil =>
    intro s s2 i c _ _ hmem _
    cases hmem
  | cons l rest ih =>
    intro s s2 i c hs hc hmem hrun
    unfold runList at hrun
    cases happ : applyL l s with
    | none =>
      rw [happ] at hrun
      exact Option.noConfusion hrun
    | some s1 =>
      rw [happ] at hrun
      dsimp only at hrun
      by_cases hl : l = Label.wakeup c
      · subst hl
        have hrb := wakeup_hits hs hc happ
        refine ⟨1, Nat.succ_le_succ (Nat.zero_le _), s1, ?_, hrb⟩
        show runList s [Label.wakeup c] = some s1
        unfold runList
        rw [happ]
        rfl
      · rcases sleeping_step hs hc happ with ⟨hs1, hc1⟩ | hrb
        · have hmem2 : Label.wakeup c ∈ rest := by
            rcases List.mem_cons.mp hmem with he | hm
            · exact absurd he.symm hl
            · exact hm
          obtain ⟨j, hj, sk, hsk, hskr⟩ := ih s1 s2 i c hs1 hc1 hmem2 hrun
          refine ⟨j + 1, Nat.succ_le_succ hj, sk, ?_, hskr⟩
          show runList s (l :: rest.take j) = some sk
          unfold runList
          rw [happ]
          exact hsk
        · refine ⟨1, Nat.succ_le_succ (Nat.zero_le _), s1, ?_, hrb⟩
          show runList s [l] = some s1
          unfold runList
          rw [happ]
          rfl

/-- Witness for C8 in `sD` (one slot sleeping on channel 5): each part
applied to the single-step run `[wakeup 5]`. -/
theorem no_lost_wakeup_witness :
    ((sD.procs 0).st = .SLEEPING) ∧ ((sD.procs 0).chan = 5) ∧
    (∃ s2, applyL (Label.wakeup (n := 1) (m := 1) 5) sD = some s2 ∧
      (s2.procs 0).st = .RUNNABLE) ∧
    (∃ s2, runList sD [Label.wakeup (n := 1) (m := 1) 5] = some s2 ∧
      ∃ j, j ≤ 1 ∧ ∃ sk,
        runList sD ([Label.wakeup (n := 1) (m := 1) 5].take j) = some sk ∧
        (sk.procs 0).st = .RUNNABLE) := by
  refine ⟨rfl, rfl, ⟨_, rfl, ?_⟩, ⟨_, rfl, ?_⟩⟩
  · exact no_lost_wakeup.2.1 sD _ 0 5 rfl rfl rfl
  · exact no_lost_wakeup.2.2 [Label.wakeup 5] sD _ 0 5 rfl rfl
      (List.mem_cons_self _ _) rfl

end XV6
